import Mathlib

/-!
The `vaibhav` ioctl queue.

A shallow embedding of `vaibhav_ioctl` (src/vaibhav.c), the ioctl handler of a
character device that keeps one circular byte queue in five static variables
(`queue_size`, `queue`, `head`, `tail`, `count`).

* C `int` values are carried as `Int`; every `int` addition or subtraction the
  handler performs goes through `wrap32` (two's-complement wrap-around).
* Memory accesses that C leaves undefined (a NULL or out-of-range `queue[...]`,
  a `%` by zero) end the call in `Outcome.oops`.
* The handler is executed sequentially: a `POP_DATA` whose wait condition is
  false either is interrupted by a signal or sleeps (`Outcome.sleeps`).
-/

set_option linter.dupNamespace false

namespace Vaibhav

/-- A C `char`, carried as its numeric value. -/
abbrev Byte := Nat

/-- Largest value of a C `int`. -/
def INT_MAX : Int := 2147483647

/-- Smallest value of a C `int`. -/
def INT_MIN : Int := -2147483648

/-- Result of a 32-bit `int` operation whose mathematical value is `x`. -/
def wrap32 (x : Int) : Int := (x + 2147483648) % 4294967296 - 2147483648

/-- Linux errno `EFAULT`. -/
def EFAULT : Int := 14

/-- Linux errno `EINVAL`. -/
def EINVAL : Int := 22

/-- Linux errno `ENOMEM`. -/
def ENOMEM : Int := 12

/-- The static queue variables of vaibhav.c (lines 52-55). `queue = none` is the
NULL pointer; `some q` is a live allocation holding the bytes `q`. -/
structure QState where
  queue_size : Int
  queue : Option (List Byte)
  head : Int
  tail : Int
  count : Int
  deriving DecidableEq, Repr

/-- The static initialisers: `queue_size = 0`, `queue = NULL`,
`head = tail = count = 0`. -/
def QState.init : QState :=
  { queue_size := 0, queue := none, head := 0, tail := 0, count := 0 }

/-- The `struct data` a caller passes to PUSH_DATA and POP_DATA. The pointer
field is modelled by the user memory accessible at that address: for a push the
bytes readable there, for a pop a buffer whose length is the writable extent. -/
structure data where
  length : Int
  data : List Byte
  deriving DecidableEq, Repr

/-- What the surroundings of one call decide. -/
structure Env where
  /-- whether the allocator can satisfy a request of positive size -/
  kmalloc_ok : Bool
  /-- the (uninitialised) contents of freshly allocated memory -/
  junk : Nat → Byte
  /-- whether a signal reaches the caller while it sleeps on `read_queue` -/
  signal : Bool

/-- The ioctl command together with what `copy_from_user` finds at `arg`
(`none`: the header copy fails). -/
inductive Cmd where
  | SET_SIZE_OF_QUEUE (arg : Option Int)
  | PUSH_DATA (arg : Option data)
  | POP_DATA (arg : Option data)
  | unrecognized (nr : Nat)
  deriving DecidableEq, Repr

/-- How a call of the handler ends. -/
inductive Outcome where
  /-- the handler returns `code`; `out` are the bytes copied to the caller -/
  | ret (code : Int) (s : QState) (out : List Byte)
  /-- the caller stays asleep in `wait_event_interruptible` -/
  | sleeps (s : QState)
  /-- an invalid memory access or division -/
  | oops
  deriving DecidableEq, Repr

/-- Whether `kmalloc(size, GFP_KERNEL)` returns a non-NULL pointer. The `int`
argument is converted to `size_t`: a negative one becomes a size no allocation
can have, and size 0 yields the non-NULL `ZERO_SIZE_PTR`. -/
def kmalloc (size : Int) (ok : Bool) : Bool :=
  if size < 0 then false else if size = 0 then true else ok

/-- The call `copy_from_user(dst, src, n)`: the `n` bytes read, or `none` when
some byte could not be copied (a negative `n` is a huge `size_t`). -/
def copy_from_user (src : List Byte) (n : Int) : Option (List Byte) :=
  if 0 ≤ n ∧ n.toNat ≤ src.length then some (src.take n.toNat) else none

/-- The call `copy_to_user(dst, src, n)`: whether all `n` bytes were copied. -/
def copy_to_user (dst : List Byte) (n : Int) : Bool :=
  decide (0 ≤ n ∧ n.toNat ≤ dst.length)

/-- The C expression `a % b` on `int`s. -/
def cMod (a b : Int) : Option Int :=
  if b = 0 then none
  else if a = INT_MIN ∧ b = -1 then none
  else some (Int.tmod a b)

/-- One iteration of the push loop (lines 139-141):
`queue[tail] = temp_buffer[i]; tail = (tail + 1) % queue_size; count++;`. -/
def pushStep (b : Byte) (s : QState) : Option QState :=
  match s.queue with
  | none => none
  | some q =>
    if 0 ≤ s.tail ∧ s.tail < q.length then
      match cMod (wrap32 (s.tail + 1)) s.queue_size with
      | none => none
      | some t =>
        some { s with queue := some (q.set s.tail.toNat b), tail := t,
                      count := wrap32 (s.count + 1) }
    else none

/-- The push loop `for (i = 0; i < user_data.length; i++)` over the
`user_data.length` bytes of `temp_buffer`. -/
def pushLoop : List Byte → QState → Option QState
  | [], s => some s
  | b :: rest, s =>
    match pushStep b s with
    | none => none
    | some s1 => pushLoop rest s1

/-- One iteration of the pop loop (lines 175-177):
`temp_buffer[i] = queue[head]; head = (head + 1) % queue_size; count--;`. -/
def popStep (s : QState) : Option (Byte × QState) :=
  match s.queue with
  | none => none
  | some q =>
    if 0 ≤ s.head ∧ s.head < q.length then
      match cMod (wrap32 (s.head + 1)) s.queue_size with
      | none => none
      | some h =>
        some (q.getD s.head.toNat 0, { s with head := h, count := wrap32 (s.count - 1) })
    else none

/-- The pop loop `for (i = 0; i < user_data.length; i++)`, given the number of
iterations; returns `temp_buffer` and the state. -/
def popLoop : Nat → QState → Option (List Byte × QState)
  | 0, s => some ([], s)
  | n + 1, s =>
    match popStep s with
    | none => none
    | some (b, s1) =>
      match popLoop n s1 with
      | none => none
      | some (bs, s2) => some (b :: bs, s2)

/-- The handler `vaibhav_ioctl` (lines 60-200), one call executed on the static
state `s`. -/
def vaibhav_ioctl (cmd : Cmd) (env : Env) (s : QState) : Outcome :=
  match cmd with
  | .SET_SIZE_OF_QUEUE arg =>
    match arg with
    | none => .ret (-EFAULT) s []
    | some temp_length =>
      if temp_length ≤ 0 then .ret (-EINVAL) s []
      else if kmalloc temp_length env.kmalloc_ok then
        .ret 0 { queue_size := temp_length,
                 queue := some ((List.range temp_length.toNat).map env.junk),
                 head := 0, tail := 0, count := 0 } []
      else
        .ret (-ENOMEM) { s with queue_size := temp_length, queue := none } []
  | .PUSH_DATA arg =>
    match arg with
    | none => .ret (-EFAULT) s []
    | some user_data =>
      match s.queue with
      | none => .ret (-ENOMEM) s []
      | some _ =>
        if user_data.length > wrap32 (s.queue_size - s.count) then .ret (-ENOMEM) s []
        else if kmalloc user_data.length env.kmalloc_ok = false then .ret (-ENOMEM) s []
        else
          match copy_from_user user_data.data user_data.length with
          | none => .ret (-EFAULT) s []
          | some temp_buffer =>
            match pushLoop temp_buffer s with
            | none => .oops
            | some s1 => .ret 0 s1 []
  | .POP_DATA arg =>
    match arg with
    | none => .ret (-EFAULT) s []
    | some user_data =>
      if s.count < user_data.length then
        (if env.signal then .ret (-EFAULT) s [] else .sleeps s)
      else if kmalloc user_data.length env.kmalloc_ok = false then .ret (-ENOMEM) s []
      else
        match popLoop user_data.length.toNat s with
        | none => .oops
        | some (temp_buffer, s1) =>
          if copy_to_user user_data.data user_data.length then .ret 0 s1 temp_buffer
          else .ret (-EFAULT) s1 []
  | .unrecognized _ => .ret (-EINVAL) s []

/-- An environment in which allocation succeeds, fresh memory reads as zero and
no signal arrives. -/
def Env.calm : Env := { kmalloc_ok := true, junk := fun _ => 0, signal := false }

/-- The queue invariant of a configured queue: storage of `queue_size` bytes is
present, `queue_size` is a positive `int`, `count`, `head` and `tail` are within
their ranges and `tail` lies `count` cells after `head` in circular order. -/
def QueueInv (s : QState) : Prop :=
  s.queue.map (fun q => (q.length : Int)) = some s.queue_size ∧
  0 < s.queue_size ∧ s.queue_size ≤ INT_MAX ∧
  0 ≤ s.count ∧ s.count ≤ s.queue_size ∧
  0 ≤ s.head ∧ s.head < s.queue_size ∧
  0 ≤ s.tail ∧ s.tail < s.queue_size ∧
  s.tail = (s.head + s.count) % s.queue_size

instance (s : QState) : Decidable (QueueInv s) := by
  unfold QueueInv; infer_instance

/-- The `n` cells of `q` read in circular order starting at index `h`. -/
def readFrom (q : List Byte) (qs : Int) : Int → Nat → List Byte
  | _, 0 => []
  | h, n + 1 => q.getD h.toNat 0 :: readFrom q qs ((h + 1) % qs) n

/-- The buffered bytes: the `count` cells from `head` on, oldest first. -/
def contents (s : QState) : List Byte :=
  match s.queue with
  | none => []
  | some q => readFrom q s.queue_size s.head s.count.toNat

/-- The storage after writing the bytes `bs` into `q` in circular order
starting at index `t`. -/
def writeFrom (q : List Byte) (qs : Int) : Int → List Byte → List Byte
  | _, [] => q
  | t, b :: rest => writeFrom (q.set t.toNat b) qs ((t + 1) % qs) rest

/-- The value fits a C `int`. -/
def isInt (x : Int) : Prop := INT_MIN ≤ x ∧ x ≤ INT_MAX

instance (x : Int) : Decidable (isInt x) := by
  unfold isInt; infer_instance

/-- The `int` fields a caller hands over are C `int`s. -/
def Cmd.WellFormed : Cmd → Prop
  | .SET_SIZE_OF_QUEUE (some v) => isInt v
  | .PUSH_DATA (some d) => isInt d.length
  | .POP_DATA (some d) => isInt d.length
  | _ => True

instance (c : Cmd) : Decidable c.WellFormed :=
  match c with
  | .SET_SIZE_OF_QUEUE (some v) => inferInstanceAs (Decidable (isInt v))
  | .SET_SIZE_OF_QUEUE none => isTrue trivial
  | .PUSH_DATA (some d) => inferInstanceAs (Decidable (isInt d.length))
  | .PUSH_DATA none => isTrue trivial
  | .POP_DATA (some d) => inferInstanceAs (Decidable (isInt d.length))
  | .POP_DATA none => isTrue trivial
  | .unrecognized _ => isTrue trivial

/-- The states the static variables can take when calls are executed one after
the other, each to its return, starting from the static initialisers. -/
inductive Reachable : QState → Prop where
  | init : Reachable QState.init
  | step {s s1 : QState} {cmd : Cmd} {env : Env} {code : Int} {out : List Byte} :
      Reachable s → cmd.WellFormed → vaibhav_ioctl cmd env s = .ret code s1 out →
      Reachable s1

/-- PUSH_DATA or POP_DATA. -/
def isQueueOp : Cmd → Bool
  | .PUSH_DATA _ => true
  | .POP_DATA _ => true
  | _ => false

/-- The bytes a PUSH_DATA call hands to the queue: the first `length` bytes at
its data pointer. -/
def pushed : Cmd → List Byte
  | .PUSH_DATA (some d) => d.data.take d.length.toNat
  | _ => []

/-- All bytes handed over by the pushes of a command sequence, in order. -/
def allPushed : List (Cmd × Env) → List Byte
  | [] => []
  | (c, _) :: rest => pushed c ++ allPushed rest

/-- Executes the calls in order as long as each returns 0; yields the bytes the
calls copied out, in order, and the final state. -/
def runAll : List (Cmd × Env) → QState → Option (List Byte × QState)
  | [], s => some ([], s)
  | (c, e) :: rest, s =>
    match vaibhav_ioctl c e s with
    | .ret code s1 out =>
      if code = 0 then
        match runAll rest s1 with
        | none => none
        | some (outs, s2) => some (out ++ outs, s2)
      else none
    | _ => none

/-- The push of filler.c, the pop of reader.c, a push of two bytes and a pop of
two bytes. -/
def fifoRun : List (Cmd × Env) :=
  [(.PUSH_DATA (some ⟨3, [120, 121, 122, 0]⟩), Env.calm),
   (.POP_DATA (some ⟨3, [0, 0, 0]⟩), Env.calm),
   (.PUSH_DATA (some ⟨2, [1, 2]⟩), Env.calm),
   (.POP_DATA (some ⟨2, [0, 0]⟩), Env.calm)]

/-- The value the handler returns to the caller, when it returns. -/
def Outcome.code : Outcome → Option Int
  | .ret c _ _ => some c
  | _ => none

/-- Scenario A after `Configure(5)` and `Enqueue([1,2,3])`. -/
def scenarioA : QState :=
  { queue_size := 5, queue := some [1, 2, 3, 0, 0], head := 0, tail := 3, count := 3 }

/-- The static variables after `Configure(5)`, `Enqueue([1,2,3])` and a
SET_SIZE_OF_QUEUE of size 7 whose allocation failed: `queue` is NULL while `count`
still is 3. -/
def staleA : QState :=
  { queue_size := 7, queue := none, head := 0, tail := 3, count := 3 }

/-- A queue of capacity 4 whose three buffered bytes wrap past the end of the
storage. -/
def wrapped : QState :=
  { queue_size := 4, queue := some [8, 9, 0, 7], head := 3, tail := 2, count := 3 }

/-- A call of `mutex_lock(&lock)` or `mutex_unlock(&lock)`. -/
inductive LockOp where
  | mutex_lock
  | mutex_unlock
  deriving DecidableEq, Repr

/-- The mutex as a held flag: the effect of one operation, `none` when the
operation is not allowed (locking a held mutex, unlocking a free one). -/
def LockOp.apply : LockOp → Bool → Option Bool
  | .mutex_lock, false => some true
  | .mutex_lock, true => none
  | .mutex_unlock, true => some false
  | .mutex_unlock, false => none

/-- Runs mutex operations in order from the given held flag. -/
def runLock : List LockOp → Bool → Option Bool
  | [], held => some held
  | op :: rest, held =>
    match op.apply held with
    | none => none
    | some held1 => runLock rest held1

/-- The handler `vaibhav_ioctl` (lines 60-200) once more, now together with the
mutex operations it performs, in order, up to the point where the call ends. -/
def vaibhav_ioctl_locked (cmd : Cmd) (env : Env) (s : QState) : List LockOp × Outcome :=
  match cmd with
  | .SET_SIZE_OF_QUEUE arg =>
    match arg with
    | none => ([.mutex_lock, .mutex_unlock], .ret (-EFAULT) s [])
    | some temp_length =>
      if temp_length ≤ 0 then ([.mutex_lock, .mutex_unlock], .ret (-EINVAL) s [])
      else if kmalloc temp_length env.kmalloc_ok then
        ([.mutex_lock, .mutex_unlock],
         .ret 0 { queue_size := temp_length,
                  queue := some ((List.range temp_length.toNat).map env.junk),
                  head := 0, tail := 0, count := 0 } [])
      else
        ([.mutex_lock, .mutex_unlock],
         .ret (-ENOMEM) { s with queue_size := temp_length, queue := none } [])
  | .PUSH_DATA arg =>
    match arg with
    | none => ([.mutex_lock, .mutex_unlock], .ret (-EFAULT) s [])
    | some user_data =>
      match s.queue with
      | none => ([.mutex_lock, .mutex_unlock], .ret (-ENOMEM) s [])
      | some _ =>
        if user_data.length > wrap32 (s.queue_size - s.count) then
          ([.mutex_lock, .mutex_unlock], .ret (-ENOMEM) s [])
        else if kmalloc user_data.length env.kmalloc_ok = false then
          ([.mutex_lock, .mutex_unlock], .ret (-ENOMEM) s [])
        else
          match copy_from_user user_data.data user_data.length with
          | none => ([.mutex_lock, .mutex_unlock], .ret (-EFAULT) s [])
          | some temp_buffer =>
            match pushLoop temp_buffer s with
            | none => ([.mutex_lock], .oops)
            | some s1 => ([.mutex_lock, .mutex_unlock], .ret 0 s1 [])
  | .POP_DATA arg =>
    match arg with
    | none => ([.mutex_lock, .mutex_unlock], .ret (-EFAULT) s [])
    | some user_data =>
      if s.count < user_data.length then
        (if env.signal then ([.mutex_lock, .mutex_unlock], .ret (-EFAULT) s [])
         else ([.mutex_lock, .mutex_unlock], .sleeps s))
      else if kmalloc user_data.length env.kmalloc_ok = false then
        ([.mutex_lock, .mutex_unlock, .mutex_lock, .mutex_unlock], .ret (-ENOMEM) s [])
      else
        match popLoop user_data.length.toNat s with
        | none => ([.mutex_lock, .mutex_unlock, .mutex_lock], .oops)
        | some (temp_buffer, s1) =>
          if copy_to_user user_data.data user_data.length then
            ([.mutex_lock, .mutex_unlock, .mutex_lock, .mutex_unlock],
             .ret 0 s1 temp_buffer)
          else
            ([.mutex_lock, .mutex_unlock, .mutex_lock, .mutex_unlock],
             .ret (-EFAULT) s1 [])
  | .unrecognized _ => ([.mutex_lock, .mutex_unlock], .ret (-EINVAL) s [])

/-- The wait condition of POP_DATA, `count >= user_data.length` (line 161),
which the caller evaluates after it has released the mutex. -/
def popWaitCondition (user_data : data) (s : QState) : Bool :=
  decide (s.count ≥ user_data.length)

/-- POP_DATA from line 164 on: the caller has left the wait, takes the mutex
again, allocates `temp_buffer`, runs the removal loop and copies out. -/
def popAfterWait (user_data : data) (env : Env) (s : QState) : Outcome :=
  if kmalloc user_data.length env.kmalloc_ok = false then .ret (-ENOMEM) s []
  else
    match popLoop user_data.length.toNat s with
    | none => .oops
    | some (temp_buffer, s1) =>
      if copy_to_user user_data.data user_data.length then .ret 0 s1 temp_buffer
      else .ret (-EFAULT) s1 []

/-- Executes the calls in order as long as each returns, whatever it returns;
yields the final state. -/
def runSeq : List (Cmd × Env) → QState → Option QState
  | [], s => some s
  | (c, e) :: rest, s =>
    match vaibhav_ioctl c e s with
    | .ret _ s1 _ => runSeq rest s1
    | _ => none

/-- Whether the call ended in an invalid memory access instead of returning or
sleeping. -/
def Outcome.died : Outcome → Bool
  | .oops => true
  | _ => false

/-- A pop of 3 bytes followed by a push of 5 bytes. -/
def popPushRun : List (Cmd × Env) :=
  [(.POP_DATA (some ⟨3, [0, 0, 0]⟩), Env.calm),
   (.PUSH_DATA (some ⟨5, [4, 5, 6, 7, 8]⟩), Env.calm)]

/-- An environment in which every allocation of positive size fails. -/
def Env.noMemory : Env := { kmalloc_ok := false, junk := fun _ => 0, signal := false }

/-- An environment in which a signal reaches a sleeping caller. -/
def Env.signalled : Env := { kmalloc_ok := true, junk := fun _ => 0, signal := true }

/-! ## Arithmetic of the handler -/

theorem wrap32_eq (x : Int) (h0 : INT_MIN ≤ x) (h1 : x ≤ INT_MAX) : wrap32 x = x := by
  unfold wrap32; unfold INT_MIN at h0; unfold INT_MAX at h1; omega

theorem cMod_eq (a b : Int) (ha : 0 ≤ a) (hb : 0 < b) : cMod a b = some (a % b) := by
  unfold cMod
  have h1 : b ≠ 0 := by omega
  have h2 : ¬ (a = INT_MIN ∧ b = -1) := by rintro ⟨_, h⟩; omega
  rw [if_neg h1, if_neg h2, Int.tmod_eq_emod ha (by omega)]

/-- Explicit value of `x % m` for `x` within one period either side of `[0, m)`. -/
theorem emod_near (x m : Int) (h0 : -m ≤ x) (h1 : x < 2 * m) :
    x % m = if x < 0 then x + m else if x < m then x else x - m := by
  split
  · have : x % m = (x + m) % m := by simp
    rw [this]; exact Int.emod_eq_of_lt (by omega) (by omega)
  · split
    · exact Int.emod_eq_of_lt (by omega) (by omega)
    · have : x % m = (x - m) % m := by
        have h := @Int.add_emod_self (x - m) m
        rw [← h]; congr 1; omega
      rw [this]; exact Int.emod_eq_of_lt (by omega) (by omega)

theorem succ_emod (x m : Int) (h0 : 0 ≤ x) (h1 : x < m) :
    (x + 1) % m = if x + 1 < m then x + 1 else 0 := by
  rw [emod_near (x + 1) m (by omega) (by omega)]
  split_ifs <;> omega

/-! ## One loop iteration -/

theorem QueueInv.storage {s : QState} (h : QueueInv s) :
    ∃ q : List Byte, s.queue = some q ∧ (q.length : Int) = s.queue_size := by
  have h1 := h.1
  cases hq : s.queue with
  | none => rw [hq] at h1; simp at h1
  | some q => rw [hq] at h1; simp at h1; exact ⟨q, rfl, h1⟩

theorem pushStep_eq (b : Byte) (s : QState) (q : List Byte) (hq : s.queue = some q)
    (h : QueueInv s) (hfree : s.count < s.queue_size) :
    pushStep b s = some { s with queue := some (q.set s.tail.toNat b),
                                 tail := (s.tail + 1) % s.queue_size,
                                 count := s.count + 1 } := by
  obtain ⟨q', hq', hlen⟩ := h.storage
  obtain ⟨-, hpos, hmax, hc0, hc1, hh0, hh1, ht0, ht1, -⟩ := h
  rw [hq] at hq'; cases hq'
  unfold INT_MAX at hmax
  have hw1 : wrap32 (s.tail + 1) = s.tail + 1 :=
    wrap32_eq _ (by unfold INT_MIN; omega) (by unfold INT_MAX; omega)
  have hw2 : wrap32 (s.count + 1) = s.count + 1 :=
    wrap32_eq _ (by unfold INT_MIN; omega) (by unfold INT_MAX; omega)
  unfold pushStep
  rw [hq]
  simp only [hw1, hw2, cMod_eq (s.tail + 1) s.queue_size (by omega) hpos]
  rw [if_pos ⟨ht0, by omega⟩]

theorem popStep_eq (s : QState) (q : List Byte) (hq : s.queue = some q)
    (h : QueueInv s) (hcount : 0 < s.count) :
    popStep s = some (q.getD s.head.toNat 0,
                      { s with head := (s.head + 1) % s.queue_size,
                               count := s.count - 1 }) := by
  obtain ⟨q', hq', hlen⟩ := h.storage
  obtain ⟨-, hpos, hmax, hc0, hc1, hh0, hh1, ht0, ht1, -⟩ := h
  rw [hq] at hq'; cases hq'
  unfold INT_MAX at hmax
  have hw1 : wrap32 (s.head + 1) = s.head + 1 :=
    wrap32_eq _ (by unfold INT_MIN; omega) (by unfold INT_MAX; omega)
  have hw2 : wrap32 (s.count - 1) = s.count - 1 :=
    wrap32_eq _ (by unfold INT_MIN; omega) (by unfold INT_MAX; omega)
  unfold popStep
  rw [hq]
  simp only [hw1, hw2, cMod_eq (s.head + 1) s.queue_size (by omega) hpos]
  rw [if_pos ⟨hh0, by omega⟩]

theorem pushStep_inv (b : Byte) (s : QState) (q : List Byte) (hq : s.queue = some q)
    (h : QueueInv s) (hfree : s.count < s.queue_size) :
    QueueInv { s with queue := some (q.set s.tail.toNat b),
                      tail := (s.tail + 1) % s.queue_size,
                      count := s.count + 1 } := by
  obtain ⟨q', hq', hlen⟩ := h.storage
  obtain ⟨-, hpos, hmax, hc0, hc1, hh0, hh1, ht0, ht1, htl⟩ := h
  rw [hq] at hq'; cases hq'
  refine ⟨by simp [hlen], hpos, hmax, by show 0 ≤ s.count + 1; omega,
    by show s.count + 1 ≤ s.queue_size; omega, hh0, hh1,
    Int.emod_nonneg _ (by omega), Int.emod_lt_of_pos _ hpos, ?_⟩
  show (s.tail + 1) % s.queue_size = (s.head + (s.count + 1)) % s.queue_size
  rw [htl, Int.emod_add_emod]; congr 1; omega

theorem popStep_inv (s : QState) (h : QueueInv s) (hcount : 0 < s.count) :
    QueueInv { s with head := (s.head + 1) % s.queue_size, count := s.count - 1 } := by
  obtain ⟨hst, hpos, hmax, hc0, hc1, hh0, hh1, ht0, ht1, htl⟩ := h
  refine ⟨hst, hpos, hmax, by show 0 ≤ s.count - 1; omega,
    by show s.count - 1 ≤ s.queue_size; omega,
    Int.emod_nonneg _ (by omega), Int.emod_lt_of_pos _ hpos, ht0, ht1, ?_⟩
  show s.tail = ((s.head + 1) % s.queue_size + (s.count - 1)) % s.queue_size
  rw [htl, Int.emod_add_emod]; congr 1; omega

/-! ## Circular reads and writes -/

theorem readFrom_length (q : List Byte) (qs : Int) (h : Int) (n : Nat) :
    (readFrom q qs h n).length = n := by
  induction n generalizing h with
  | zero => rfl
  | succ n ih => simp [readFrom, ih]

theorem readFrom_getElem? (q : List Byte) (qs : Int) (hpos : 0 < qs) (n : Nat) :
    ∀ (h : Int) (i : Nat), 0 ≤ h → h < qs → i < n →
      (readFrom q qs h n)[i]? = some (q.getD ((h + i) % qs).toNat 0) := by
  induction n with
  | zero => intro h i _ _ hi; omega
  | succ n ih =>
    intro h i h0 h1 hi
    cases i with
    | zero =>
      simp only [readFrom, List.getElem?_cons_zero, Nat.cast_zero, Int.add_zero]
      rw [Int.emod_eq_of_lt h0 h1]
    | succ i =>
      simp only [readFrom, List.getElem?_cons_succ]
      rw [ih ((h + 1) % qs) i (Int.emod_nonneg _ (by omega)) (Int.emod_lt_of_pos _ hpos)
        (by omega), Int.emod_add_emod]
      have : h + 1 + (i : Int) = h + ((i + 1 : Nat) : Int) := by push_cast; omega
      rw [this]

theorem writeFrom_length (qs : Int) (bs : List Byte) :
    ∀ (q : List Byte) (t : Int), (writeFrom q qs t bs).length = q.length := by
  induction bs with
  | nil => intro q t; rfl
  | cons b rest ih => intro q t; simp [writeFrom, ih]

/-- Writing one byte at the cell just past the `n` buffered ones extends what is
read from `h` by that byte. -/
theorem readFrom_set (qs : Int) (b : Byte) (n : Nat) :
    ∀ (q : List Byte) (h : Int), (q.length : Int) = qs → 0 ≤ h → h < qs → (n : Int) < qs →
      readFrom (q.set ((h + n) % qs).toNat b) qs h (n + 1) = readFrom q qs h n ++ [b] := by
  induction n with
  | zero =>
    intro q h hlen h0 h1 _
    have hh : (h + ((0 : Nat) : Int)) % qs = h := by
      simp only [Nat.cast_zero, Int.add_zero]; exact Int.emod_eq_of_lt h0 h1
    rw [hh]
    have : h.toNat < q.length := by omega
    simp [readFrom, this]
  | succ n ih =>
    intro q h hlen h0 h1 hn
    have hpos : 0 < qs := by omega
    have hcell : (h + ((n + 1 : Nat) : Int)) % qs = ((h + 1) % qs + (n : Int)) % qs := by
      rw [Int.emod_add_emod]; congr 1; push_cast; omega
    have hne : ((h + ((n + 1 : Nat) : Int)) % qs).toNat ≠ h.toNat := by
      have hn0 : (0 : Int) ≤ (n : Int) := Int.ofNat_nonneg n
      rw [emod_near (h + ((n + 1 : Nat) : Int)) qs (by push_cast; omega) (by push_cast; omega)]
      push_cast
      split_ifs <;> omega
    have ih1 := ih q ((h + 1) % qs) hlen (Int.emod_nonneg _ (by omega))
      (Int.emod_lt_of_pos _ hpos) (by push_cast at hn; omega)
    rw [← hcell] at ih1
    rw [readFrom, ih1]
    conv_rhs => rw [readFrom]
    simp only [List.cons_append, List.getD_eq_getElem?_getD]
    rw [List.getElem?_set_ne hne]

/-- After writing `bs` just past the `n` buffered bytes, reading `n + |bs|` bytes
from `h` yields the old bytes followed by `bs`. -/
theorem readFrom_writeFrom (qs : Int) (bs : List Byte) :
    ∀ (q : List Byte) (h : Int) (n : Nat), (q.length : Int) = qs → 0 ≤ h → h < qs →
      (n : Int) + bs.length ≤ qs →
      readFrom (writeFrom q qs ((h + n) % qs) bs) qs h (n + bs.length)
        = readFrom q qs h n ++ bs := by
  induction bs with
  | nil => intro q h n _ _ _ _; simp [writeFrom]
  | cons b rest ih =>
    intro q h n hlen h0 h1 hn
    simp only [List.length_cons, Nat.cast_add, Nat.cast_one] at hn
    have hstep : ((h + (n : Int)) % qs + 1) % qs = (h + ((n + 1 : Nat) : Int)) % qs := by
      rw [Int.emod_add_emod]; congr 1; push_cast; omega
    have ih1 := ih (q.set ((h + (n : Int)) % qs).toNat b) h (n + 1)
      (by simp [hlen]) h0 h1 (by push_cast; omega)
    rw [← hstep] at ih1
    have hn0 : (0 : Int) ≤ (rest.length : Int) := Int.ofNat_nonneg _
    rw [readFrom_set qs b n q h hlen h0 h1 (by omega)] at ih1
    simp only [writeFrom, List.length_cons]
    rw [show n + (rest.length + 1) = n + 1 + rest.length by omega, ih1]
    simp

/-- Cell by cell: the storage after writing `bs` from `t` on holds `bs` in the
cells at circular offsets `0 .. |bs| - 1` from `t` and is unchanged elsewhere. -/
theorem writeFrom_getElem? (qs : Int) (bs : List Byte) :
    ∀ (q : List Byte) (t : Int), (q.length : Int) = qs → 0 ≤ t → t < qs →
      (bs.length : Int) ≤ qs → ∀ j : Nat, (j : Int) < qs →
      (writeFrom q qs t bs)[j]? =
        if ((j : Int) - t) % qs < bs.length then bs[(((j : Int) - t) % qs).toNat]?
        else q[j]? := by
  induction bs with
  | nil =>
    intro q t _ h0 h1 _ j hj
    have : ¬ ((j : Int) - t) % qs < 0 := by
      have := Int.emod_nonneg ((j : Int) - t) (show qs ≠ 0 by omega)
      omega
    simp [writeFrom, this]
  | cons b rest ih =>
    intro q t hlen h0 h1 hbs j hj
    have hpos : 0 < qs := by omega
    have hj0 : (0 : Int) ≤ j := Int.ofNat_nonneg j
    simp only [List.length_cons, Nat.cast_add, Nat.cast_one] at hbs ⊢
    have hr0 : (0 : Int) ≤ (rest.length : Int) := Int.ofNat_nonneg _
    have ht' := succ_emod t qs h0 h1
    have hk := emod_near ((j : Int) - t) qs (by omega) (by omega)
    have hk' := emod_near ((j : Int) - (t + 1) % qs) qs
      (by rw [ht']; split_ifs <;> omega) (by rw [ht']; split_ifs <;> omega)
    rw [writeFrom, ih (q.set t.toNat b) ((t + 1) % qs) (by simp [hlen])
      (Int.emod_nonneg _ (by omega)) (Int.emod_lt_of_pos _ hpos) (by omega) j hj]
    by_cases hjt : (j : Int) = t
    · have e1 : ((j : Int) - (t + 1) % qs) % qs = qs - 1 := by
        rw [hk', ht']; split_ifs <;> omega
      have e2 : ((j : Int) - t) % qs = 0 := by
        rw [hk]; split_ifs <;> omega
      rw [e1, e2, if_neg (by omega), if_pos (by omega)]
      have hjn : t.toNat = j := by omega
      rw [hjn]
      have hjl : j < q.length := by omega
      simp [hjl]
    · have e1 : ((j : Int) - (t + 1) % qs) % qs = ((j : Int) - t) % qs - 1 := by
        rw [hk', hk, ht']; split_ifs <;> omega
      have e3 : 1 ≤ ((j : Int) - t) % qs := by
        rw [hk]; split_ifs <;> omega
      rw [e1]
      generalize ((j : Int) - t) % qs = k at e3 ⊢
      by_cases hlt : k - 1 < rest.length
      · rw [if_pos hlt, if_pos (by omega)]
        have : k.toNat = (k - 1).toNat + 1 := by omega
        rw [this, List.getElem?_cons_succ]
      · rw [if_neg hlt, if_neg (by omega)]
        exact List.getElem?_set_ne (by omega)

/-- The cell at circular offset `i` from `t` holds the `i`-th written byte. -/
theorem writeFrom_written (qs : Int) (bs q : List Byte) (t : Int)
    (hlen : (q.length : Int) = qs) (h0 : 0 ≤ t) (h1 : t < qs) (hbs : (bs.length : Int) ≤ qs)
    (i : Nat) (hi : i < bs.length) :
    (writeFrom q qs t bs)[((t + i) % qs).toNat]? = bs[i]? := by
  have hpos : 0 < qs := by omega
  have hi0 : (0 : Int) ≤ (i : Int) := Int.ofNat_nonneg _
  have hc0 := Int.emod_nonneg (t + i) (show qs ≠ 0 by omega)
  have hc1 := Int.emod_lt_of_pos (t + i) hpos
  have hcast : (((t + i) % qs).toNat : Int) = (t + i) % qs := Int.toNat_of_nonneg hc0
  rw [writeFrom_getElem? qs bs q t hlen h0 h1 hbs _ (by omega), hcast]
  have hoff : ((t + i) % qs - t) % qs = i := by
    have e1 := emod_near (t + i) qs (by omega) (by omega)
    have e2 := emod_near ((t + i) % qs - t) qs (by omega) (by omega)
    rw [e2, e1]; split_ifs <;> omega
  rw [hoff, if_pos (by omega)]
  simp

/-- A cell that is at none of the written offsets keeps its byte. -/
theorem writeFrom_other (qs : Int) (bs q : List Byte) (t : Int)
    (hlen : (q.length : Int) = qs) (h0 : 0 ≤ t) (h1 : t < qs) (hbs : (bs.length : Int) ≤ qs)
    (j : Nat) (hj : j < q.length)
    (hne : ∀ i : Nat, i < bs.length → (j : Int) ≠ (t + i) % qs) :
    (writeFrom q qs t bs)[j]? = q[j]? := by
  have hpos : 0 < qs := by omega
  have hk0 := Int.emod_nonneg ((j : Int) - t) (show qs ≠ 0 by omega)
  rw [writeFrom_getElem? qs bs q t hlen h0 h1 hbs j (by omega)]
  by_cases hk : ((j : Int) - t) % qs < bs.length
  · exfalso
    refine hne (((j : Int) - t) % qs).toNat (by omega) ?_
    rw [Int.toNat_of_nonneg hk0, Int.add_emod_emod]
    have : t + ((j : Int) - t) = j := by omega
    rw [this, Int.emod_eq_of_lt (Int.ofNat_nonneg _) (by omega)]
  · rw [if_neg hk]

/-- Reading `a + b` cells is reading `a` cells and then `b` more. -/
theorem readFrom_append (q : List Byte) (qs : Int) (a b : Nat) :
    ∀ h : Int, 0 ≤ h → h < qs →
      readFrom q qs h (a + b) = readFrom q qs h a ++ readFrom q qs ((h + a) % qs) b := by
  induction a with
  | zero =>
    intro h h0 h1
    simp [readFrom, Int.emod_eq_of_lt h0 h1]
  | succ a ih =>
    intro h h0 h1
    have hpos : 0 < qs := by omega
    rw [show a + 1 + b = (a + b) + 1 by omega, readFrom,
      ih ((h + 1) % qs) (Int.emod_nonneg _ (by omega)) (Int.emod_lt_of_pos _ hpos),
      Int.emod_add_emod]
    have : h + 1 + (a : Int) = h + ((a + 1 : Nat) : Int) := by push_cast; omega
    rw [this]
    simp [readFrom]

/-! ## The two loops -/

/-- The push loop on a queue with room for `bs`: it completes, and its result is
given in closed form. -/
theorem pushLoop_eq (bs : List Byte) :
    ∀ (s : QState) (q : List Byte), s.queue = some q → QueueInv s →
      s.count + bs.length ≤ s.queue_size →
      pushLoop bs s = some { s with queue := some (writeFrom q s.queue_size s.tail bs),
                                    tail := (s.tail + bs.length) % s.queue_size,
                                    count := s.count + bs.length } := by
  induction bs with
  | nil =>
    intro s q hq h _
    obtain ⟨-, hpos, -, -, -, -, -, ht0, ht1, -⟩ := h
    cases s
    simp only at hq ht0 ht1
    simp [pushLoop, writeFrom, hq, Int.emod_eq_of_lt ht0 ht1]
  | cons b rest ih =>
    intro s q hq h hroom
    simp only [List.length_cons, Nat.cast_add, Nat.cast_one] at hroom ⊢
    have hr0 : (0 : Int) ≤ (rest.length : Int) := Int.ofNat_nonneg _
    have hfree : s.count < s.queue_size := by omega
    rw [pushLoop, pushStep_eq b s q hq h hfree]
    simp only
    rw [ih _ (q.set s.tail.toNat b) rfl (pushStep_inv b s q hq h hfree)
      (by show s.count + 1 + (rest.length : Int) ≤ s.queue_size; omega)]
    simp only [writeFrom, Int.emod_add_emod]
    congr 2
    · congr 1; omega
    · omega

/-- The pop loop for `n` of the buffered bytes: it completes, and its result is
given in closed form. -/
theorem popLoop_eq (n : Nat) :
    ∀ (s : QState) (q : List Byte), s.queue = some q → QueueInv s → (n : Int) ≤ s.count →
      popLoop n s = some (readFrom q s.queue_size s.head n,
                          { s with head := (s.head + n) % s.queue_size,
                                   count := s.count - n }) := by
  induction n with
  | zero =>
    intro s q hq h _
    obtain ⟨-, hpos, -, -, -, hh0, hh1, -, -, -⟩ := h
    cases s
    simp only at hh0 hh1
    simp [popLoop, readFrom, Int.emod_eq_of_lt hh0 hh1]
  | succ n ih =>
    intro s q hq h hn
    push_cast at hn ⊢
    have hn0 : (0 : Int) ≤ (n : Int) := Int.ofNat_nonneg _
    have hcount : 0 < s.count := by omega
    rw [popLoop, popStep_eq s q hq h hcount]
    simp only
    rw [ih { s with head := (s.head + 1) % s.queue_size, count := s.count - 1 } q hq
      (popStep_inv s h hcount) (by show (n : Int) ≤ s.count - 1; omega)]
    simp only [readFrom, Int.emod_add_emod]
    congr 3
    · congr 1; omega
    · omega

theorem pushLoop_inv (bs : List Byte) (s : QState) (q : List Byte) (hq : s.queue = some q)
    (h : QueueInv s) (hroom : s.count + bs.length ≤ s.queue_size) :
    QueueInv { s with queue := some (writeFrom q s.queue_size s.tail bs),
                      tail := (s.tail + bs.length) % s.queue_size,
                      count := s.count + bs.length } := by
  obtain ⟨q', hq', hlen⟩ := h.storage
  obtain ⟨-, hpos, hmax, hc0, hc1, hh0, hh1, ht0, ht1, htl⟩ := h
  rw [hq] at hq'; cases hq'
  have hr0 : (0 : Int) ≤ (bs.length : Int) := Int.ofNat_nonneg _
  refine ⟨by simp [writeFrom_length, hlen], hpos, hmax,
    by show 0 ≤ s.count + (bs.length : Int); omega, hroom, hh0, hh1,
    Int.emod_nonneg _ (by omega), Int.emod_lt_of_pos _ hpos, ?_⟩
  show (s.tail + (bs.length : Int)) % s.queue_size
    = (s.head + (s.count + (bs.length : Int))) % s.queue_size
  rw [htl, Int.emod_add_emod]; congr 1; omega

theorem popLoop_inv (n : Nat) (s : QState) (h : QueueInv s) (hn : (n : Int) ≤ s.count) :
    QueueInv { s with head := (s.head + n) % s.queue_size, count := s.count - n } := by
  obtain ⟨hst, hpos, hmax, hc0, hc1, hh0, hh1, ht0, ht1, htl⟩ := h
  have hn0 : (0 : Int) ≤ (n : Int) := Int.ofNat_nonneg _
  refine ⟨hst, hpos, hmax, by show 0 ≤ s.count - (n : Int); omega,
    by show s.count - (n : Int) ≤ s.queue_size; omega,
    Int.emod_nonneg _ (by omega), Int.emod_lt_of_pos _ hpos, ht0, ht1, ?_⟩
  show s.tail = ((s.head + (n : Int)) % s.queue_size + (s.count - (n : Int))) % s.queue_size
  rw [htl, Int.emod_add_emod]; congr 1; omega

/-! ## The handler on a configured queue -/

theorem copy_from_user_some (src : List Byte) (n : Int) (bs : List Byte)
    (h : copy_from_user src n = some bs) :
    0 ≤ n ∧ n.toNat ≤ src.length ∧ bs = src.take n.toNat ∧ (bs.length : Int) = n := by
  unfold copy_from_user at h
  split at h
  · rename_i hc
    cases h
    refine ⟨hc.1, hc.2, rfl, ?_⟩
    rw [List.length_take, Nat.min_eq_left hc.2]
    omega
  · cases h

theorem kmalloc_nonneg (size : Int) (ok : Bool) (h : ¬ kmalloc size ok = false) : 0 ≤ size := by
  unfold kmalloc at h
  split at h
  · simp at h
  · omega

/-- PUSH_DATA on a configured queue, all `int` arithmetic resolved. -/
theorem push_configured (s : QState) (q : List Byte) (env : Env) (d : data)
    (hq : s.queue = some q) (h : QueueInv s) :
    vaibhav_ioctl (.PUSH_DATA (some d)) env s =
      if d.length > s.queue_size - s.count then .ret (-ENOMEM) s []
      else if kmalloc d.length env.kmalloc_ok = false then .ret (-ENOMEM) s []
      else match copy_from_user d.data d.length with
        | none => .ret (-EFAULT) s []
        | some bs =>
          .ret 0 { s with queue := some (writeFrom q s.queue_size s.tail bs),
                          tail := (s.tail + bs.length) % s.queue_size,
                          count := s.count + bs.length } [] := by
  have hw : wrap32 (s.queue_size - s.count) = s.queue_size - s.count := by
    obtain ⟨-, hpos, hmax, hc0, hc1, -⟩ := h
    unfold INT_MAX at hmax
    exact wrap32_eq _ (by unfold INT_MIN; omega) (by unfold INT_MAX; omega)
  simp only [vaibhav_ioctl, hq, hw]
  split_ifs with h1 h2
  · rfl
  · rfl
  · cases hc : copy_from_user d.data d.length with
    | none => rfl
    | some bs =>
      obtain ⟨-, -, -, hlen⟩ := copy_from_user_some _ _ _ hc
      simp only
      rw [pushLoop_eq bs s q hq h (by omega)]

/-- POP_DATA on a configured queue, all `int` arithmetic resolved. -/
theorem pop_configured (s : QState) (q : List Byte) (env : Env) (d : data)
    (hq : s.queue = some q) (h : QueueInv s) :
    vaibhav_ioctl (.POP_DATA (some d)) env s =
      if s.count < d.length then (if env.signal then .ret (-EFAULT) s [] else .sleeps s)
      else if kmalloc d.length env.kmalloc_ok = false then .ret (-ENOMEM) s []
      else if copy_to_user d.data d.length then
        .ret 0 { s with head := (s.head + d.length) % s.queue_size,
                        count := s.count - d.length }
               (readFrom q s.queue_size s.head d.length.toNat)
      else
        .ret (-EFAULT) { s with head := (s.head + d.length) % s.queue_size,
                                count := s.count - d.length } [] := by
  simp only [vaibhav_ioctl]
  by_cases h1 : s.count < d.length
  · simp only [if_pos h1]
  · by_cases h2 : kmalloc d.length env.kmalloc_ok = false
    · simp only [if_neg h1, if_pos h2]
    · have hn := kmalloc_nonneg _ _ h2
      simp only [if_neg h1, if_neg h2]
      rw [popLoop_eq d.length.toNat s q hq h (by omega)]
      simp only [Int.toNat_of_nonneg hn]

/-- The pop loop without storage: it completes only when it has nothing to do. -/
theorem popLoop_unconfigured (n : Nat) (s : QState) (hq : s.queue = none) :
    popLoop n s = if n = 0 then some ([], s) else none := by
  cases n with
  | zero => rfl
  | succ n => simp [popLoop, popStep, hq]

/-- POP_DATA while `queue` is NULL. -/
theorem pop_unconfigured (s : QState) (env : Env) (d : data) (hq : s.queue = none) :
    vaibhav_ioctl (.POP_DATA (some d)) env s =
      if s.count < d.length then (if env.signal then .ret (-EFAULT) s [] else .sleeps s)
      else if kmalloc d.length env.kmalloc_ok = false then .ret (-ENOMEM) s []
      else if d.length.toNat = 0 then
        (if copy_to_user d.data d.length then .ret 0 s [] else .ret (-EFAULT) s [])
      else .oops := by
  simp only [vaibhav_ioctl, popLoop_unconfigured _ s hq]
  by_cases h1 : s.count < d.length
  · simp only [if_pos h1]
  · by_cases h2 : kmalloc d.length env.kmalloc_ok = false
    · simp only [if_neg h1, if_pos h2]
    · by_cases h3 : d.length.toNat = 0
      · simp only [if_neg h1, if_neg h2, if_pos h3]
      · simp only [if_neg h1, if_neg h2, if_neg h3]

/-! ## Preservation of the invariant -/

theorem ret_state_eq {c c1 : Int} {s s1 : QState} {o o1 : List Byte}
    (h : Outcome.ret c s o = Outcome.ret c1 s1 o1) : s = s1 := by
  injection h

/-- Every returning call takes a state that is unconfigured or satisfies the
invariant to such a state. -/
theorem ioctl_preserves_inv (s : QState) (cmd : Cmd) (env : Env) (code : Int) (s1 : QState)
    (out : List Byte) (h : s.queue = none ∨ QueueInv s) (hwf : cmd.WellFormed)
    (hstep : vaibhav_ioctl cmd env s = .ret code s1 out) :
    s1.queue = none ∨ QueueInv s1 := by
  cases cmd with
  | SET_SIZE_OF_QUEUE arg =>
    cases arg with
    | none =>
      simp only [vaibhav_ioctl] at hstep
      rw [← ret_state_eq hstep]; exact h
    | some v =>
      simp only [vaibhav_ioctl] at hstep
      split_ifs at hstep with h1 h2
      · rw [← ret_state_eq hstep]; exact h
      · rw [← ret_state_eq hstep]
        right
        have hv : (v.toNat : Int) = v := Int.toNat_of_nonneg (by omega)
        exact ⟨by simp [hv], by show 0 < v; omega, hwf.2, Int.le_refl _,
          by show (0 : Int) ≤ v; omega, Int.le_refl _, by show (0 : Int) < v; omega,
          Int.le_refl _, by show (0 : Int) < v; omega, by simp⟩
      · rw [← ret_state_eq hstep]; left; rfl
  | PUSH_DATA arg =>
    cases arg with
    | none =>
      simp only [vaibhav_ioctl] at hstep
      rw [← ret_state_eq hstep]; exact h
    | some d =>
      rcases h with hnone | hinv
      · simp only [vaibhav_ioctl, hnone] at hstep
        rw [← ret_state_eq hstep]; exact Or.inl hnone
      · obtain ⟨q, hq, -⟩ := hinv.storage
        rw [push_configured s q env d hq hinv] at hstep
        split_ifs at hstep with h1 h2
        · rw [← ret_state_eq hstep]; exact Or.inr hinv
        · rw [← ret_state_eq hstep]; exact Or.inr hinv
        · cases hc : copy_from_user d.data d.length with
          | none =>
            rw [hc] at hstep
            rw [← ret_state_eq hstep]; exact Or.inr hinv
          | some bs =>
            rw [hc] at hstep
            obtain ⟨-, -, -, hlen⟩ := copy_from_user_some _ _ _ hc
            rw [← ret_state_eq hstep]
            exact Or.inr (pushLoop_inv bs s q hq hinv (by omega))
  | POP_DATA arg =>
    cases arg with
    | none =>
      simp only [vaibhav_ioctl] at hstep
      rw [← ret_state_eq hstep]; exact h
    | some d =>
      rcases h with hnone | hinv
      · rw [pop_unconfigured s env d hnone] at hstep
        split_ifs at hstep
        all_goals (rw [← ret_state_eq hstep]; exact Or.inl hnone)
      · obtain ⟨q, hq, -⟩ := hinv.storage
        rw [pop_configured s q env d hq hinv] at hstep
        by_cases h1 : s.count < d.length
        · rw [if_pos h1] at hstep
          split_ifs at hstep
          · rw [← ret_state_eq hstep]; exact Or.inr hinv
        · by_cases h2 : kmalloc d.length env.kmalloc_ok = false
          · rw [if_neg h1, if_pos h2] at hstep
            rw [← ret_state_eq hstep]; exact Or.inr hinv
          · rw [if_neg h1, if_neg h2] at hstep
            have hn := kmalloc_nonneg _ _ h2
            have hi := popLoop_inv d.length.toNat s hinv (by omega)
            rw [Int.toNat_of_nonneg hn] at hi
            split_ifs at hstep
            all_goals (rw [← ret_state_eq hstep]; exact Or.inr hi)
  | unrecognized nr =>
    simp only [vaibhav_ioctl] at hstep
    rw [← ret_state_eq hstep]; exact h

theorem reachable_inv (s : QState) (h : Reachable s) : s.queue = none ∨ QueueInv s := by
  induction h with
  | init => left; rfl
  | step _ hwf hstep ih => exact ioctl_preserves_inv _ _ _ _ _ _ ih hwf hstep

/-! ## Buffered bytes across calls -/

theorem ret_code_eq {c c1 : Int} {s s1 : QState} {o o1 : List Byte}
    (h : Outcome.ret c s o = Outcome.ret c1 s1 o1) : c = c1 := by
  injection h

theorem ret_out_eq {c c1 : Int} {s s1 : QState} {o o1 : List Byte}
    (h : Outcome.ret c s o = Outcome.ret c1 s1 o1) : o = o1 := by
  injection h

/-- A successful push appends its bytes to the buffered bytes. -/
theorem contents_push (s : QState) (q bs : List Byte) (hq : s.queue = some q)
    (h : QueueInv s) (hroom : s.count + bs.length ≤ s.queue_size) :
    contents { s with queue := some (writeFrom q s.queue_size s.tail bs),
                      tail := (s.tail + bs.length) % s.queue_size,
                      count := s.count + bs.length } = contents s ++ bs := by
  obtain ⟨q', hq', hlen⟩ := h.storage
  obtain ⟨-, hpos, hmax, hc0, hc1, hh0, hh1, ht0, ht1, htl⟩ := h
  rw [hq] at hq'; cases hq'
  have hcn : ((s.count.toNat : Nat) : Int) = s.count := Int.toNat_of_nonneg hc0
  have hn : (s.count + (bs.length : Int)).toNat = s.count.toNat + bs.length := by omega
  have ht : s.tail = (s.head + (s.count.toNat : Int)) % s.queue_size := by rw [hcn]; exact htl
  simp only [contents, hq, hn]
  rw [ht]
  exact readFrom_writeFrom s.queue_size bs q s.head s.count.toNat hlen hh0 hh1 (by omega)

/-- A pop of `n` buffered bytes splits the buffered bytes into the bytes read
and the bytes that remain. -/
theorem contents_pop (s : QState) (q : List Byte) (n : Int) (hq : s.queue = some q)
    (h : QueueInv s) (hn0 : 0 ≤ n) (hn : n ≤ s.count) :
    contents s = readFrom q s.queue_size s.head n.toNat ++
      contents { s with head := (s.head + n) % s.queue_size, count := s.count - n } := by
  obtain ⟨-, hpos, hmax, hc0, hc1, hh0, hh1, ht0, ht1, htl⟩ := h
  have hsplit : s.count.toNat = n.toNat + (s.count - n).toNat := by omega
  simp only [contents, hq]
  rw [hsplit, readFrom_append q s.queue_size n.toNat (s.count - n).toNat s.head hh0 hh1,
    Int.toNat_of_nonneg hn0]

/-- A PUSH_DATA or POP_DATA that returns 0 on a queue satisfying the invariant:
the buffered bytes followed by the bytes pushed are the bytes copied out followed
by the bytes buffered afterwards. -/
theorem step_contents (s : QState) (c : Cmd) (e : Env) (s1 : QState) (out : List Byte)
    (h : QueueInv s) (hop : isQueueOp c = true)
    (hstep : vaibhav_ioctl c e s = .ret 0 s1 out) :
    QueueInv s1 ∧ contents s ++ pushed c = out ++ contents s1 := by
  obtain ⟨q, hq, -⟩ := h.storage
  cases c with
  | SET_SIZE_OF_QUEUE arg => cases hop
  | unrecognized nr => cases hop
  | PUSH_DATA arg =>
    cases arg with
    | none =>
      simp only [vaibhav_ioctl] at hstep
      exact absurd (ret_code_eq hstep) (by decide)
    | some d =>
      rw [push_configured s q e d hq h] at hstep
      split_ifs at hstep with h1 h2
      · exact absurd (ret_code_eq hstep) (by decide)
      · exact absurd (ret_code_eq hstep) (by decide)
      · cases hc : copy_from_user d.data d.length with
        | none =>
          rw [hc] at hstep
          exact absurd (ret_code_eq hstep) (by decide)
        | some bs =>
          rw [hc] at hstep
          obtain ⟨-, -, hbs, hlen⟩ := copy_from_user_some _ _ _ hc
          rw [← ret_state_eq hstep, ← ret_out_eq hstep]
          refine ⟨pushLoop_inv bs s q hq h (by omega), ?_⟩
          rw [contents_push s q bs hq h (by omega)]
          simp [pushed, hbs]
  | POP_DATA arg =>
    cases arg with
    | none =>
      simp only [vaibhav_ioctl] at hstep
      exact absurd (ret_code_eq hstep) (by decide)
    | some d =>
      rw [pop_configured s q e d hq h] at hstep
      by_cases h1 : s.count < d.length
      · rw [if_pos h1] at hstep
        split_ifs at hstep
        exact absurd (ret_code_eq hstep) (by decide)
      · by_cases h2 : kmalloc d.length e.kmalloc_ok = false
        · rw [if_neg h1, if_pos h2] at hstep
          exact absurd (ret_code_eq hstep) (by decide)
        · rw [if_neg h1, if_neg h2] at hstep
          have hn := kmalloc_nonneg _ _ h2
          have hi := popLoop_inv d.length.toNat s h (by omega)
          rw [Int.toNat_of_nonneg hn] at hi
          split_ifs at hstep
          · rw [← ret_state_eq hstep, ← ret_out_eq hstep]
            refine ⟨hi, ?_⟩
            rw [contents_pop s q d.length hq h hn (by omega)]
            simp [pushed]
          · exact absurd (ret_code_eq hstep) (by decide)

/-- The same over a sequence of pushes and pops that all return 0. -/
theorem run_contents (cmds : List (Cmd × Env)) :
    ∀ (s : QState) (popped : List Byte) (sf : QState), QueueInv s →
      (∀ c ∈ cmds, isQueueOp c.1 = true) → runAll cmds s = some (popped, sf) →
      QueueInv sf ∧ contents s ++ allPushed cmds = popped ++ contents sf := by
  induction cmds with
  | nil =>
    intro s popped sf h _ hrun
    simp only [runAll, Option.some.injEq, Prod.mk.injEq] at hrun
    obtain ⟨hp, hs⟩ := hrun
    subst hp; subst hs
    exact ⟨h, by simp [allPushed]⟩
  | cons ce rest ih =>
    intro s popped sf h hops hrun
    obtain ⟨c, e⟩ := ce
    simp only [runAll] at hrun
    cases hstep : vaibhav_ioctl c e s with
    | oops => rw [hstep] at hrun; cases hrun
    | sleeps s1 => rw [hstep] at hrun; cases hrun
    | ret code s1 out =>
      rw [hstep] at hrun
      simp only at hrun
      by_cases hcode : code = 0
      · rw [if_pos hcode] at hrun
        subst hcode
        cases hrest : runAll rest s1 with
        | none => rw [hrest] at hrun; cases hrun
        | some r =>
          obtain ⟨outs, s2⟩ := r
          rw [hrest] at hrun
          simp only [Option.some.injEq, Prod.mk.injEq] at hrun
          obtain ⟨hp, hs⟩ := hrun
          subst hp; subst hs
          obtain ⟨hinv1, hc1⟩ :=
            step_contents s c e s1 out h (hops (c, e) (List.mem_cons_self _ _)) hstep
          obtain ⟨hinv2, hc2⟩ :=
            ih s1 outs s2 hinv1 (fun x hx => hops x (List.mem_cons_of_mem _ hx)) hrest
          refine ⟨hinv2, ?_⟩
          simp only [allPushed]
          rw [← List.append_assoc, hc1, List.append_assoc, hc2, List.append_assoc]
      · rw [if_neg hcode] at hrun; cases hrun

/-! ## The mutex and the two phases of POP_DATA -/

/-- Dropping the mutex operations gives back the handler. -/
theorem locked_outcome (cmd : Cmd) (env : Env) (s : QState) :
    (vaibhav_ioctl_locked cmd env s).2 = vaibhav_ioctl cmd env s := by
  cases cmd with
  | SET_SIZE_OF_QUEUE arg =>
    cases arg with
    | none => rfl
    | some v =>
      simp only [vaibhav_ioctl_locked, vaibhav_ioctl]
      split_ifs <;> rfl
  | PUSH_DATA arg =>
    cases arg with
    | none => rfl
    | some d =>
      simp only [vaibhav_ioctl_locked, vaibhav_ioctl]
      cases s.queue with
      | none => rfl
      | some q =>
        simp only
        split_ifs
        · rfl
        · rfl
        · cases copy_from_user d.data d.length with
          | none => rfl
          | some bs =>
            simp only
            cases pushLoop bs s <;> rfl
  | POP_DATA arg =>
    cases arg with
    | none => rfl
    | some d =>
      simp only [vaibhav_ioctl_locked, vaibhav_ioctl]
      by_cases h1 : s.count < d.length
      · simp only [if_pos h1]
        split_ifs <;> rfl
      · by_cases h2 : kmalloc d.length env.kmalloc_ok = false
        · simp only [if_neg h1, if_pos h2]
        · simp only [if_neg h1, if_neg h2]
          cases popLoop d.length.toNat s with
          | none => rfl
          | some r =>
            simp only
            split_ifs <;> rfl
  | unrecognized nr => rfl

/-- POP_DATA is the wait on `popWaitCondition` followed by `popAfterWait`. -/
theorem pop_two_phases (d : data) (env : Env) (s : QState) :
    vaibhav_ioctl (.POP_DATA (some d)) env s =
      if popWaitCondition d s = true then popAfterWait d env s
      else if env.signal then .ret (-EFAULT) s [] else .sleeps s := by
  have hc : popWaitCondition d s = true ↔ ¬ s.count < d.length := by
    simp only [popWaitCondition, decide_eq_true_eq]; omega
  unfold vaibhav_ioctl popAfterWait
  by_cases h1 : s.count < d.length
  · simp only [if_pos h1, if_neg (show ¬ popWaitCondition d s = true from fun h => hc.mp h h1)]
  · simp only [if_neg h1, if_pos (hc.mpr h1)]

/-! ## Further facts about reachable states -/

/-- A returning PUSH_DATA or POP_DATA on a configured queue keeps the queue
configured with the same capacity. -/
theorem queueOp_preserves (s : QState) (c : Cmd) (e : Env) (code : Int) (s1 : QState)
    (out : List Byte) (h : QueueInv s) (hop : isQueueOp c = true)
    (hstep : vaibhav_ioctl c e s = .ret code s1 out) :
    QueueInv s1 ∧ s1.queue_size = s.queue_size := by
  obtain ⟨q, hq, -⟩ := h.storage
  cases c with
  | SET_SIZE_OF_QUEUE arg => cases hop
  | unrecognized nr => cases hop
  | PUSH_DATA arg =>
    cases arg with
    | none =>
      simp only [vaibhav_ioctl] at hstep
      rw [← ret_state_eq hstep]; exact ⟨h, rfl⟩
    | some d =>
      rw [push_configured s q e d hq h] at hstep
      split_ifs at hstep with h1 h2
      · rw [← ret_state_eq hstep]; exact ⟨h, rfl⟩
      · rw [← ret_state_eq hstep]; exact ⟨h, rfl⟩
      · cases hc : copy_from_user d.data d.length with
        | none =>
          rw [hc] at hstep
          rw [← ret_state_eq hstep]; exact ⟨h, rfl⟩
        | some bs =>
          rw [hc] at hstep
          obtain ⟨-, -, -, hlen⟩ := copy_from_user_some _ _ _ hc
          rw [← ret_state_eq hstep]
          exact ⟨pushLoop_inv bs s q hq h (by omega), rfl⟩
  | POP_DATA arg =>
    cases arg with
    | none =>
      simp only [vaibhav_ioctl] at hstep
      rw [← ret_state_eq hstep]; exact ⟨h, rfl⟩
    | some d =>
      rw [pop_configured s q e d hq h] at hstep
      by_cases h1 : s.count < d.length
      · rw [if_pos h1] at hstep
        split_ifs at hstep
        rw [← ret_state_eq hstep]; exact ⟨h, rfl⟩
      · by_cases h2 : kmalloc d.length e.kmalloc_ok = false
        · rw [if_neg h1, if_pos h2] at hstep
          rw [← ret_state_eq hstep]; exact ⟨h, rfl⟩
        · rw [if_neg h1, if_neg h2] at hstep
          have hn := kmalloc_nonneg _ _ h2
          have hi := popLoop_inv d.length.toNat s h (by omega)
          rw [Int.toNat_of_nonneg hn] at hi
          split_ifs at hstep
          all_goals (rw [← ret_state_eq hstep]; exact ⟨hi, rfl⟩)

/-- The same over a sequence of returning pushes and pops. -/
theorem runSeq_preserves (cmds : List (Cmd × Env)) :
    ∀ (s s1 : QState), QueueInv s → (∀ c ∈ cmds, isQueueOp c.1 = true) →
      runSeq cmds s = some s1 → QueueInv s1 ∧ s1.queue_size = s.queue_size := by
  induction cmds with
  | nil =>
    intro s s1 h _ hrun
    simp only [runSeq, Option.some.injEq] at hrun
    subst hrun
    exact ⟨h, rfl⟩
  | cons ce rest ih =>
    intro s s1 h hops hrun
    obtain ⟨c, e⟩ := ce
    simp only [runSeq] at hrun
    cases hstep : vaibhav_ioctl c e s with
    | oops => rw [hstep] at hrun; cases hrun
    | sleeps s2 => rw [hstep] at hrun; cases hrun
    | ret code s2 out =>
      rw [hstep] at hrun
      simp only at hrun
      obtain ⟨hinv2, hqs2⟩ :=
        queueOp_preserves s c e code s2 out h (hops (c, e) (List.mem_cons_self _ _)) hstep
      obtain ⟨hinv1, hqs1⟩ :=
        ih s2 s1 hinv2 (fun x hx => hops x (List.mem_cons_of_mem _ hx)) hrun
      exact ⟨hinv1, by rw [hqs1, hqs2]⟩

/-- No returning call makes `count` negative on a state that is unconfigured or
satisfies the invariant. -/
theorem ioctl_count_nonneg (s : QState) (cmd : Cmd) (env : Env) (code : Int) (s1 : QState)
    (out : List Byte) (h0 : 0 ≤ s.count) (h : s.queue = none ∨ QueueInv s)
    (hstep : vaibhav_ioctl cmd env s = .ret code s1 out) : 0 ≤ s1.count := by
  cases cmd with
  | SET_SIZE_OF_QUEUE arg =>
    cases arg with
    | none =>
      simp only [vaibhav_ioctl] at hstep
      rw [← ret_state_eq hstep]; exact h0
    | some v =>
      simp only [vaibhav_ioctl] at hstep
      split_ifs at hstep
      · rw [← ret_state_eq hstep]; exact h0
      · rw [← ret_state_eq hstep]
      · rw [← ret_state_eq hstep]; exact h0
  | PUSH_DATA arg =>
    cases arg with
    | none =>
      simp only [vaibhav_ioctl] at hstep
      rw [← ret_state_eq hstep]; exact h0
    | some d =>
      rcases h with hnone | hinv
      · simp only [vaibhav_ioctl, hnone] at hstep
        rw [← ret_state_eq hstep]; exact h0
      · exact (queueOp_preserves s (.PUSH_DATA (some d)) env code s1 out hinv rfl
          hstep).1.2.2.2.1
  | POP_DATA arg =>
    cases arg with
    | none =>
      simp only [vaibhav_ioctl] at hstep
      rw [← ret_state_eq hstep]; exact h0
    | some d =>
      rcases h with hnone | hinv
      · rw [pop_unconfigured s env d hnone] at hstep
        split_ifs at hstep
        all_goals (rw [← ret_state_eq hstep]; exact h0)
      · exact (queueOp_preserves s (.POP_DATA (some d)) env code s1 out hinv rfl
          hstep).1.2.2.2.1
  | unrecognized nr =>
    simp only [vaibhav_ioctl] at hstep
    rw [← ret_state_eq hstep]; exact h0

theorem reachable_count_nonneg (s : QState) (h : Reachable s) : 0 ≤ s.count := by
  induction h with
  | init => exact Int.le_refl _
  | step hr _ hstep ih => exact ioctl_count_nonneg _ _ _ _ _ _ ih (reachable_inv _ hr) hstep

/-- Scenario A is reached by `Configure(5)` and `Enqueue([1,2,3])`. -/
theorem scenarioA_reachable : Reachable scenarioA :=
  Reachable.step
    (Reachable.step Reachable.init
      (show (Cmd.SET_SIZE_OF_QUEUE (some 5)).WellFormed by decide)
      (show vaibhav_ioctl (.SET_SIZE_OF_QUEUE (some 5)) Env.calm QState.init
        = .ret 0 ⟨5, some [0, 0, 0, 0, 0], 0, 0, 0⟩ [] by decide))
    (show (Cmd.PUSH_DATA (some ⟨3, [1, 2, 3]⟩)).WellFormed by decide)
    (show vaibhav_ioctl (.PUSH_DATA (some ⟨3, [1, 2, 3]⟩)) Env.calm
        ⟨5, some [0, 0, 0, 0, 0], 0, 0, 0⟩ = .ret 0 scenarioA [] by decide)

/-- The stale state is reached from Scenario A by a SET_SIZE_OF_QUEUE of size 7
whose allocation fails. -/
theorem staleA_reachable : Reachable staleA :=
  Reachable.step scenarioA_reachable
    (show (Cmd.SET_SIZE_OF_QUEUE (some 7)).WellFormed by decide)
    (show vaibhav_ioctl (.SET_SIZE_OF_QUEUE (some 7)) Env.noMemory scenarioA
      = .ret (-ENOMEM) staleA [] by decide)

/-! ## Claims -/

/-- C1. FIFO round trip: let `s` be the state a successful SET_SIZE_OF_QUEUE with
an `int` capacity `n` leaves. For every sequence of PUSH_DATA and POP_DATA calls
executed one after the other on `s` that all return 0, the bytes copied out by the
pops, concatenated, are the prefix of the same length of the bytes pushed,
concatenated; what is left of the pushed bytes is exactly what is still buffered. -/
theorem C1_fifo_round_trip (s0 : QState) (e0 : Env) (n : Int) (s : QState)
    (hmax : n ≤ INT_MAX)
    (hconf : vaibhav_ioctl (.SET_SIZE_OF_QUEUE (some n)) e0 s0 = .ret 0 s [])
    (cmds : List (Cmd × Env)) (hops : ∀ c ∈ cmds, isQueueOp c.1 = true)
    (popped : List Byte) (sf : QState) (hrun : runAll cmds s = some (popped, sf)) :
    popped = (allPushed cmds).take popped.length ∧
    allPushed cmds = popped ++ contents sf := by
  have hs : QueueInv s ∧ contents s = [] := by
    simp only [vaibhav_ioctl] at hconf
    split_ifs at hconf with h1 h2
    · exact absurd (ret_code_eq hconf) (by decide)
    · rw [← ret_state_eq hconf]
      have hv : (n.toNat : Int) = n := Int.toNat_of_nonneg (by omega)
      exact ⟨⟨by simp [hv], by show 0 < n; omega, hmax, Int.le_refl _,
        by show (0 : Int) ≤ n; omega, Int.le_refl _, by show (0 : Int) < n; omega,
        Int.le_refl _, by show (0 : Int) < n; omega, by simp⟩, by simp [contents, readFrom]⟩
    · exact absurd (ret_code_eq hconf) (by decide)
  obtain ⟨-, hc⟩ := run_contents cmds s popped sf hs.1 hops hrun
  rw [hs.2, List.nil_append] at hc
  exact ⟨by rw [hc, List.take_left], hc⟩

/-- C1, witness: Capacity 4: the push of filler.c ("xyz", length 3, from a 4-byte
buffer), the pop of reader.c (length 3), then a push of two bytes that wraps
past the end of the storage and a pop of both: the pops return "xyz" and then
the two bytes. -/
theorem C1_fifo_round_trip_witness :
    (4 : Int) ≤ INT_MAX ∧
    vaibhav_ioctl (.SET_SIZE_OF_QUEUE (some 4)) Env.calm QState.init
      = .ret 0 ⟨4, some [0, 0, 0, 0], 0, 0, 0⟩ [] ∧
    (∀ c ∈ fifoRun, isQueueOp c.1 = true) ∧
    runAll fifoRun ⟨4, some [0, 0, 0, 0], 0, 0, 0⟩
      = some ([120, 121, 122, 1, 2], ⟨4, some [2, 121, 122, 1], 1, 1, 0⟩) ∧
    [120, 121, 122, 1, 2]
      = (allPushed fifoRun).take ([120, 121, 122, 1, 2] : List Byte).length ∧
    allPushed fifoRun
      = [120, 121, 122, 1, 2] ++ contents ⟨4, some [2, 121, 122, 1], 1, 1, 0⟩ :=
  ⟨by decide, by decide, by decide, by decide,
   C1_fifo_round_trip QState.init Env.calm 4 ⟨4, some [0, 0, 0, 0], 0, 0, 0⟩ (by decide)
     (by decide) fifoRun (by decide) [120, 121, 122, 1, 2]
     ⟨4, some [2, 121, 122, 1], 1, 1, 0⟩ (by decide)⟩

/-- C2. Overflow rejection: on a configured queue a PUSH_DATA whose length
exceeds `queue_size - count` returns `-ENOMEM` and leaves the whole state
(head, tail, count, storage) unchanged. -/
theorem C2_overflow_rejection (s : QState) (env : Env) (d : data)
    (hinv : QueueInv s) (hlen : d.length > s.queue_size - s.count) :
    vaibhav_ioctl (.PUSH_DATA (some d)) env s = .ret (-ENOMEM) s [] := by
  obtain ⟨q, hq, -⟩ := hinv.storage
  rw [push_configured s q env d hq hinv, if_pos hlen]

/-- C2, witness: Scenario A: after `Configure(5)` and `Enqueue([1,2,3])`,
`Enqueue([4,5,6])` is rejected and count stays 3. -/
theorem C2_overflow_rejection_witness :
    QueueInv scenarioA ∧ (3 : Int) > scenarioA.queue_size - scenarioA.count ∧
    vaibhav_ioctl (.PUSH_DATA (some ⟨3, [4, 5, 6]⟩)) Env.calm scenarioA
      = .ret (-ENOMEM) scenarioA [] :=
  ⟨by decide, by decide,
   C2_overflow_rejection scenarioA Env.calm ⟨3, [4, 5, 6]⟩ (by decide) (by decide)⟩

/-- C3. Enqueue postcondition: on a queue satisfying the invariant, a PUSH_DATA
with `0 <= length <= queue_size - count` whose allocation and data copy succeed
returns 0; tail becomes `(tail + length) % queue_size`, count grows by `length`,
head and queue_size are unchanged, the cell `(tail + i) % queue_size` holds the
`i`-th input byte for each `i < length`, every other cell keeps its byte, and for
`length = 0` the state is unchanged (also on a full queue). -/
theorem C3_enqueue_postcondition (s : QState) (env : Env) (d : data)
    (hinv : QueueInv s) (h0 : 0 ≤ d.length) (h1 : d.length ≤ s.queue_size - s.count)
    (halloc : kmalloc d.length env.kmalloc_ok = true)
    (hcopy : (copy_from_user d.data d.length).isSome = true) :
    ∃ (s1 : QState) (q q1 : List Byte),
      vaibhav_ioctl (.PUSH_DATA (some d)) env s = .ret 0 s1 [] ∧
      s1.tail = (s.tail + d.length) % s.queue_size ∧
      s1.count = s.count + d.length ∧
      s1.head = s.head ∧ s1.queue_size = s.queue_size ∧
      s.queue = some q ∧ s1.queue = some q1 ∧ q1.length = q.length ∧
      (∀ i : Nat, (i : Int) < d.length →
        ∃ b, d.data[i]? = some b ∧ q1[((s.tail + i) % s.queue_size).toNat]? = some b) ∧
      (∀ j : Nat, j < q.length →
        (∀ i : Nat, (i : Int) < d.length → (j : Int) ≠ (s.tail + i) % s.queue_size) →
        q1[j]? = q[j]?) ∧
      (d.length = 0 → s1 = s) := by
  obtain ⟨q, hq, hqlen⟩ := hinv.storage
  obtain ⟨bs, hbs⟩ := Option.isSome_iff_exists.mp hcopy
  obtain ⟨-, hsrc, hbseq, hbslen⟩ := copy_from_user_some _ _ _ hbs
  have hstep := push_configured s q env d hq hinv
  rw [if_neg (by omega), if_neg (by simp [halloc]), hbs] at hstep
  simp only at hstep
  obtain ⟨-, hpos, hmax, hc0, hc1, hh0, hh1, ht0, ht1, htl⟩ := hinv
  refine ⟨_, q, writeFrom q s.queue_size s.tail bs, hstep, ?_, ?_, rfl, rfl, hq, rfl,
    writeFrom_length _ _ _ _, ?_, ?_, ?_⟩
  · show (s.tail + (bs.length : Int)) % s.queue_size = _
    rw [hbslen]
  · show s.count + (bs.length : Int) = _
    rw [hbslen]
  · intro i hi
    have hib : i < bs.length := by omega
    have hid : i < d.data.length := by omega
    refine ⟨d.data[i], by simp [hid], ?_⟩
    rw [writeFrom_written s.queue_size bs q s.tail hqlen ht0 ht1 (by omega) i hib, hbseq,
      List.getElem?_take_of_lt (by omega)]
    simp [hid]
  · intro j hj hne
    exact writeFrom_other s.queue_size bs q s.tail hqlen ht0 ht1 (by omega) j hj
      (fun i hi => hne i (by omega))
  · intro hz
    have hnil : bs = [] := List.eq_nil_of_length_eq_zero (by omega)
    subst hnil
    cases s
    simp only at hq ht0 ht1
    simp [writeFrom, hq, Int.emod_eq_of_lt ht0 ht1]

/-- C3, witness: on the wrapped queue of capacity 4 holding 3 bytes, a push of the
one byte 5 succeeds and moves tail from 2 to 3 and count from 3 to 4. -/
theorem C3_enqueue_postcondition_witness :
    QueueInv wrapped ∧ (0 : Int) ≤ 1 ∧ (1 : Int) ≤ wrapped.queue_size - wrapped.count ∧
    kmalloc 1 Env.calm.kmalloc_ok = true ∧
    (copy_from_user [5] 1).isSome = true ∧
    ∃ s1 : QState,
      vaibhav_ioctl (.PUSH_DATA (some ⟨1, [5]⟩)) Env.calm wrapped = .ret 0 s1 [] ∧
      s1.tail = 3 ∧ s1.count = 4 ∧ s1.head = 3 := by
  obtain ⟨s1, _, _, h, ht, hc, hh, _⟩ :=
    C3_enqueue_postcondition wrapped Env.calm ⟨1, [5]⟩ (by decide) (by decide)
      (by decide) (by decide) (by decide)
  exact ⟨by decide, by decide, by decide, by decide, by decide, s1, h, ht, hc, hh⟩

/-- C4. Non-blocking dequeue postcondition: on a queue satisfying the invariant,
a POP_DATA with `0 <= length <= count` whose allocation and copy to the caller
succeed returns 0 without sleeping, for every signal state; it delivers exactly
`length` bytes, the `i`-th being `storage[(head + i) % queue_size]`; head becomes
`(head + length) % queue_size`, count drops by `length`, and tail, queue_size
and the storage are unchanged. -/
theorem C4_dequeue_postcondition (s : QState) (env : Env) (d : data)
    (hinv : QueueInv s) (h0 : 0 ≤ d.length) (h1 : d.length ≤ s.count)
    (halloc : kmalloc d.length env.kmalloc_ok = true)
    (hcopy : copy_to_user d.data d.length = true) :
    ∃ (s1 : QState) (out q : List Byte),
      vaibhav_ioctl (.POP_DATA (some d)) env s = .ret 0 s1 out ∧
      (out.length : Int) = d.length ∧
      s.queue = some q ∧
      (∀ i : Nat, (i : Int) < d.length →
        ∃ b, q[((s.head + i) % s.queue_size).toNat]? = some b ∧ out[i]? = some b) ∧
      s1.head = (s.head + d.length) % s.queue_size ∧
      s1.count = s.count - d.length ∧
      s1.tail = s.tail ∧ s1.queue = s.queue ∧ s1.queue_size = s.queue_size := by
  obtain ⟨q, hq, hqlen⟩ := hinv.storage
  have hstep := pop_configured s q env d hq hinv
  rw [if_neg (by omega), if_neg (by simp [halloc]), if_pos hcopy] at hstep
  obtain ⟨-, hpos, hmax, hc0, hc1, hh0, hh1, ht0, ht1, htl⟩ := hinv
  refine ⟨_, _, q, hstep, ?_, hq, ?_, rfl, rfl, rfl, rfl, rfl⟩
  · rw [readFrom_length]; omega
  · intro i hi
    have hi0 : (0 : Int) ≤ (i : Int) := Int.ofNat_nonneg _
    have hc0 := Int.emod_nonneg (s.head + i) (show s.queue_size ≠ 0 by omega)
    have hc1 := Int.emod_lt_of_pos (s.head + i) hpos
    have hcell : ((s.head + i) % s.queue_size).toNat < q.length := by omega
    refine ⟨q[((s.head + i) % s.queue_size).toNat], by simp [hcell], ?_⟩
    rw [readFrom_getElem? q s.queue_size hpos d.length.toNat s.head i hh0 hh1 (by omega)]
    simp [hcell]

/-- C4, witness: on the wrapped queue (head 3, count 3, capacity 4) a pop of 3 bytes
returns 0 and moves head to 2 and count to 0. -/
theorem C4_dequeue_postcondition_witness :
    QueueInv wrapped ∧ (0 : Int) ≤ 3 ∧ (3 : Int) ≤ wrapped.count ∧
    kmalloc 3 Env.calm.kmalloc_ok = true ∧
    copy_to_user [0, 0, 0] 3 = true ∧
    ∃ (s1 : QState) (out : List Byte),
      vaibhav_ioctl (.POP_DATA (some ⟨3, [0, 0, 0]⟩)) Env.calm wrapped = .ret 0 s1 out ∧
      (out.length : Int) = 3 ∧ s1.head = 2 ∧ s1.count = 0 ∧ s1.tail = 2 := by
  obtain ⟨s1, out, _, h, hl, _, _, hh, hc, ht, _⟩ :=
    C4_dequeue_postcondition wrapped Env.calm ⟨3, [0, 0, 0]⟩ (by decide) (by decide)
      (by decide) (by decide) (by decide)
  exact ⟨by decide, by decide, by decide, by decide, by decide, s1, out, h, hl, hh, hc, ht⟩

/-- C5. Queue invariant: in every state reachable from the static initialisers by
returning calls of any commands with any `int` arguments and any copy, allocation
and signal outcomes, whenever storage is present, `0 <= count <= queue_size`,
`0 <= head < queue_size`, `0 <= tail < queue_size`,
`tail = (head + count) % queue_size`, and the storage has `queue_size` cells. -/
theorem C5_queue_invariant (s : QState) (hreach : Reachable s)
    (hconf : s.queue.isSome = true) :
    0 ≤ s.count ∧ s.count ≤ s.queue_size ∧
    0 ≤ s.head ∧ s.head < s.queue_size ∧
    0 ≤ s.tail ∧ s.tail < s.queue_size ∧
    s.tail = (s.head + s.count) % s.queue_size ∧
    s.queue.map (fun q => (q.length : Int)) = some s.queue_size := by
  rcases reachable_inv s hreach with hnone | hinv
  · rw [hnone] at hconf; cases hconf
  · obtain ⟨hst, -, -, hc0, hc1, hh0, hh1, ht0, ht1, htl⟩ := hinv
    exact ⟨hc0, hc1, hh0, hh1, ht0, ht1, htl, hst⟩

/-- C5, witness: the state of Scenario A is reached by `Configure(5)` and
`Enqueue([1,2,3])`, and it satisfies the bounds. -/
theorem C5_queue_invariant_witness :
    Reachable scenarioA ∧ scenarioA.queue.isSome = true ∧
    0 ≤ scenarioA.count ∧ scenarioA.count ≤ scenarioA.queue_size ∧
    0 ≤ scenarioA.head ∧ scenarioA.head < scenarioA.queue_size ∧
    0 ≤ scenarioA.tail ∧ scenarioA.tail < scenarioA.queue_size ∧
    scenarioA.tail = (scenarioA.head + scenarioA.count) % scenarioA.queue_size ∧
    scenarioA.queue.map (fun q => (q.length : Int)) = some scenarioA.queue_size :=
  have hr : Reachable scenarioA :=
    Reachable.step
      (Reachable.step Reachable.init
        (show (Cmd.SET_SIZE_OF_QUEUE (some 5)).WellFormed by decide)
        (show vaibhav_ioctl (.SET_SIZE_OF_QUEUE (some 5)) Env.calm QState.init
          = .ret 0 ⟨5, some [0, 0, 0, 0, 0], 0, 0, 0⟩ [] by decide))
      (show (Cmd.PUSH_DATA (some ⟨3, [1, 2, 3]⟩)).WellFormed by decide)
      (show vaibhav_ioctl (.PUSH_DATA (some ⟨3, [1, 2, 3]⟩)) Env.calm
          ⟨5, some [0, 0, 0, 0, 0], 0, 0, 0⟩ = .ret 0 scenarioA [] by decide)
  ⟨hr, rfl, C5_queue_invariant scenarioA hr rfl⟩

/-- C6. Reconfigure discards state: from any prior state, a SET_SIZE_OF_QUEUE with
`size > 0` whose allocation succeeds returns 0 and leaves `queue_size = size`,
storage of `size` bytes and `head = tail = count = 0`; nothing is buffered in the
new state, and no POP_DATA of one or more bytes issued on it returns success. -/
theorem C6_reconfigure_discards_state (s : QState) (env : Env) (size : Int)
    (hsize : 0 < size) (halloc : env.kmalloc_ok = true) :
    ∃ (s1 : QState) (q : List Byte),
      vaibhav_ioctl (.SET_SIZE_OF_QUEUE (some size)) env s = .ret 0 s1 [] ∧
      s1.queue_size = size ∧ s1.queue = some q ∧ (q.length : Int) = size ∧
      s1.head = 0 ∧ s1.tail = 0 ∧ s1.count = 0 ∧
      contents s1 = [] ∧
      (∀ (env1 : Env) (d : data) (s2 : QState) (out : List Byte), 0 < d.length →
        vaibhav_ioctl (.POP_DATA (some d)) env1 s1 ≠ .ret 0 s2 out) := by
  have hk : kmalloc size env.kmalloc_ok = true := by
    unfold kmalloc
    rw [if_neg (by omega), if_neg (by omega)]; exact halloc
  refine ⟨{ queue_size := size, queue := some ((List.range size.toNat).map env.junk),
            head := 0, tail := 0, count := 0 },
    (List.range size.toNat).map env.junk, ?_, rfl, rfl, ?_, rfl, rfl, rfl, ?_, ?_⟩
  · simp only [vaibhav_ioctl, if_neg (show ¬ size ≤ 0 by omega), hk, if_true]
  · simp; omega
  · simp [contents, readFrom]
  · intro env1 d s2 out hd
    simp only [vaibhav_ioctl, if_pos hd]
    split
    · intro h; injection h with h1; revert h1; decide
    · intro h; cases h

/-- C6, witness: reconfiguring the queue of Scenario A, which holds 3 bytes, to
capacity 2. -/
theorem C6_reconfigure_discards_state_witness :
    (0 : Int) < 2 ∧ Env.calm.kmalloc_ok = true ∧
    ∃ s1 : QState,
      vaibhav_ioctl (.SET_SIZE_OF_QUEUE (some 2)) Env.calm scenarioA = .ret 0 s1 [] ∧
      s1.queue_size = 2 ∧ s1.head = 0 ∧ s1.tail = 0 ∧ s1.count = 0 ∧ contents s1 = [] := by
  obtain ⟨s1, _, h, hs, _, _, hh, ht, hc, hb, _⟩ :=
    C6_reconfigure_discards_state scenarioA Env.calm 2 (by decide) rfl
  exact ⟨by decide, rfl, s1, h, hs, hh, ht, hc, hb⟩

/-- C7. SET_SIZE_OF_QUEUE with a size that is zero or negative returns `-EINVAL`
and leaves the whole state unchanged, whatever the state was. -/
theorem C7_configure_rejects_nonpositive (s : QState) (env : Env) (size : Int)
    (hsize : size ≤ 0) :
    vaibhav_ioctl (.SET_SIZE_OF_QUEUE (some size)) env s = .ret (-EINVAL) s [] := by
  simp only [vaibhav_ioctl, if_pos hsize]

/-- C7, witness: `Configure(-5)` on the queue of Scenario A. -/
theorem C7_configure_rejects_nonpositive_witness :
    (-5 : Int) ≤ 0 ∧
    vaibhav_ioctl (.SET_SIZE_OF_QUEUE (some (-5))) Env.calm scenarioA
      = .ret (-EINVAL) scenarioA [] :=
  ⟨by decide, C7_configure_rejects_nonpositive scenarioA Env.calm (-5) (by decide)⟩

/-- C8, evaluated where it fails: on the queue of Scenario A (3 bytes buffered) a
POP_DATA of 3 bytes whose destination cannot be written returns `-EFAULT`, yet
head has moved from 0 to 3 and count from 3 to 0: the bytes are gone. The same
request with a writable destination returns 0 with the same head and count. -/
theorem C8_pop_copy_failure_mutates :
    vaibhav_ioctl (.POP_DATA (some ⟨3, []⟩)) Env.calm scenarioA
      = .ret (-EFAULT) { scenarioA with head := 3, count := 0 } [] ∧
    vaibhav_ioctl (.POP_DATA (some ⟨3, [0, 0, 0]⟩)) Env.calm scenarioA
      = .ret 0 { scenarioA with head := 3, count := 0 } [1, 2, 3] ∧
    scenarioA.head ≠ 3 ∧ scenarioA.count ≠ 0 := by
  decide

/-- C9, evaluated where it fails: before any SET_SIZE_OF_QUEUE the POP_DATA of
reader.c (length 3) sleeps, a POP_DATA of length 0 returns 0, and on the state a
failed reallocation leaves behind (`queue` NULL, `count` 3) a POP_DATA of length 3
reads through the NULL pointer. None of them is refused. -/
theorem C9_pop_unconfigured_not_refused :
    QState.init.queue = none ∧
    vaibhav_ioctl (.POP_DATA (some ⟨3, [0, 0, 0]⟩)) Env.calm QState.init
      = .sleeps QState.init ∧
    vaibhav_ioctl (.POP_DATA (some ⟨0, []⟩)) Env.calm QState.init
      = .ret 0 QState.init [] ∧
    staleA.queue = none ∧
    vaibhav_ioctl (.POP_DATA (some ⟨3, [0, 0, 0]⟩)) Env.calm staleA = .oops := by
  decide

/-- C10 as stated fails: the PUSH_DATA of `[4,5,6]` returns `-ENOMEM` on the
unconfigured queue and `-ENOMEM` on the configured queue of Scenario A, which
lacks the free space; the two results are not distinguishable. -/
theorem C10_counterexample :
    QState.init.queue = none ∧ QueueInv scenarioA ∧
    (3 : Int) > scenarioA.queue_size - scenarioA.count ∧
    (vaibhav_ioctl (.PUSH_DATA (some ⟨3, [4, 5, 6]⟩)) Env.calm QState.init).code
      = some (-ENOMEM) ∧
    (vaibhav_ioctl (.PUSH_DATA (some ⟨3, [4, 5, 6]⟩)) Env.calm scenarioA).code
      = some (-ENOMEM) ∧
    ¬ ((vaibhav_ioctl (.PUSH_DATA (some ⟨3, [4, 5, 6]⟩)) Env.calm QState.init).code
        ≠ (vaibhav_ioctl (.PUSH_DATA (some ⟨3, [4, 5, 6]⟩)) Env.calm scenarioA).code) := by
  decide

/-- C10, amended. For every request whose header copy succeeds, a PUSH_DATA issued
while `queue` is NULL returns `-ENOMEM`, for every length, data pointer and
allocation outcome, and leaves the whole state unchanged; this is the code the
free-space rejection of a configured queue returns as well. -/
theorem C10_push_unconfigured (s : QState) (env : Env) (d : data)
    (hq : s.queue = none) :
    vaibhav_ioctl (.PUSH_DATA (some d)) env s = .ret (-ENOMEM) s [] := by
  simp only [vaibhav_ioctl, hq]

/-- C10, witness: the push of filler.c before any SET_SIZE_OF_QUEUE. -/
theorem C10_push_unconfigured_witness :
    QState.init.queue = none ∧
    vaibhav_ioctl (.PUSH_DATA (some ⟨3, [120, 121, 122, 0]⟩)) Env.calm QState.init
      = .ret (-ENOMEM) QState.init [] :=
  ⟨rfl, C10_push_unconfigured QState.init Env.calm ⟨3, [120, 121, 122, 0]⟩ rfl⟩

/-- C11, evaluated where it fails: on the queue of Scenario A a SET_SIZE_OF_QUEUE
of size 7 whose allocation fails returns `-ENOMEM` and leaves `queue` NULL, but
`queue_size` holds the 7 of the failed request and tail and count still are the
3 of the previous configuration. -/
theorem C11_failed_allocation_leaves_stale_state :
    (0 : Int) < 7 ∧ kmalloc 7 Env.noMemory.kmalloc_ok = false ∧
    vaibhav_ioctl (.SET_SIZE_OF_QUEUE (some 7)) Env.noMemory scenarioA
      = .ret (-ENOMEM) staleA [] ∧
    staleA.queue = none ∧ staleA.queue_size = 7 ∧ staleA.count = 3 ∧ staleA.tail = 3 := by
  decide

/-- C12 as stated fails: a PUSH_DATA of length 3 whose data pointer provides no
readable byte returns `-ENOMEM`, not `-EFAULT`, on the unconfigured queue and on
the queue of Scenario A, which has two free cells. -/
theorem C12_counterexample :
    copy_from_user [] 3 = none ∧
    QState.init.queue = none ∧
    vaibhav_ioctl (.PUSH_DATA (some ⟨3, []⟩)) Env.calm QState.init
      = .ret (-ENOMEM) QState.init [] ∧
    QueueInv scenarioA ∧
    vaibhav_ioctl (.PUSH_DATA (some ⟨3, []⟩)) Env.calm scenarioA
      = .ret (-ENOMEM) scenarioA [] ∧
    -ENOMEM ≠ -EFAULT := by
  decide

/-- C12, amended. For every queue state that is unconfigured or satisfies the
invariant and every PUSH_DATA request whose data pointer does not provide
`length` readable bytes, the call returns an error and leaves the whole state
unchanged; the error is `-EFAULT` when the queue is configured, the length fits
the free space and the temporary allocation succeeds, and `-ENOMEM` otherwise,
because the unconfigured check, the free-space check and the allocation come
before the copy of the data. -/
theorem C12_push_bad_data (s : QState) (env : Env) (d : data)
    (hs : s.queue = none ∨ QueueInv s)
    (hbad : copy_from_user d.data d.length = none) :
    vaibhav_ioctl (.PUSH_DATA (some d)) env s =
      .ret (if s.queue.isSome = true ∧ d.length ≤ s.queue_size - s.count ∧
               kmalloc d.length env.kmalloc_ok = true
            then -EFAULT else -ENOMEM) s [] := by
  rcases hs with hnone | hinv
  · simp [vaibhav_ioctl, hnone]
  · obtain ⟨q, hq, -⟩ := hinv.storage
    rw [push_configured s q env d hq hinv, hbad]
    by_cases h1 : d.length > s.queue_size - s.count
    · rw [if_pos h1, if_neg (fun h => by omega)]
    · by_cases h2 : kmalloc d.length env.kmalloc_ok = false
      · rw [if_neg h1, if_pos h2, if_neg (fun h => by simp [h2] at h)]
      · rw [if_neg h1, if_neg h2, if_pos ⟨by simp [hq], by omega, by simpa using h2⟩]

/-- C12, witness: on the wrapped queue, which has one free cell, a push of
length 1 from an unreadable pointer returns `-EFAULT` and changes nothing. -/
theorem C12_push_bad_data_witness :
    (wrapped.queue = none ∨ QueueInv wrapped) ∧ copy_from_user [] 1 = none ∧
    vaibhav_ioctl (.PUSH_DATA (some ⟨1, []⟩)) Env.calm wrapped
      = .ret (-EFAULT) wrapped [] :=
  ⟨Or.inr (by decide), by decide,
   (C12_push_bad_data wrapped Env.calm ⟨1, []⟩ (Or.inr (by decide)) (by decide)).trans
     (by decide)⟩

/-- C13 as stated fails: a POP_DATA of 3 bytes that waits on the empty initial
queue and is interrupted returns `-EFAULT`, which is the result a POP_DATA
returns when its argument cannot be read (BadAddress); the two are not
distinct. -/
theorem C13_counterexample :
    QState.init.count < 3 ∧ Env.signalled.signal = true ∧
    (vaibhav_ioctl (.POP_DATA (some ⟨3, [0, 0, 0]⟩)) Env.signalled QState.init).code
      = some (-EFAULT) ∧
    (vaibhav_ioctl (.POP_DATA none) Env.calm QState.init).code = some (-EFAULT) ∧
    ¬ ((vaibhav_ioctl (.POP_DATA (some ⟨3, [0, 0, 0]⟩)) Env.signalled QState.init).code
        ≠ (vaibhav_ioctl (.POP_DATA none) Env.calm QState.init).code) := by
  decide

/-- C13, amended. For every queue state and every POP_DATA request that waits
(`count < length`) and whose wait is interrupted by a signal, the call returns
`-EFAULT` (the code also used for BadAddress), the whole state is unchanged, and
the mutex operations performed are one lock and one unlock, so the call returns
with the mutex free. -/
theorem C13_interrupted_wait (s : QState) (env : Env) (d : data)
    (hwait : s.count < d.length) (hsig : env.signal = true) :
    vaibhav_ioctl (.POP_DATA (some d)) env s = .ret (-EFAULT) s [] ∧
    vaibhav_ioctl_locked (.POP_DATA (some d)) env s
      = ([.mutex_lock, .mutex_unlock], .ret (-EFAULT) s []) ∧
    runLock (vaibhav_ioctl_locked (.POP_DATA (some d)) env s).1 false = some false := by
  have h1 : vaibhav_ioctl_locked (.POP_DATA (some d)) env s
      = ([.mutex_lock, .mutex_unlock], .ret (-EFAULT) s []) := by
    simp only [vaibhav_ioctl_locked, if_pos hwait, hsig, if_true]
  refine ⟨?_, h1, ?_⟩
  · simp only [vaibhav_ioctl, if_pos hwait, hsig, if_true]
  · rw [h1]; rfl

/-- C13, witness: the pop of reader.c on the empty initial queue, interrupted by
a signal. -/
theorem C13_interrupted_wait_witness :
    QState.init.count < 3 ∧ Env.signalled.signal = true ∧
    vaibhav_ioctl (.POP_DATA (some ⟨3, [0, 0, 0]⟩)) Env.signalled QState.init
      = .ret (-EFAULT) QState.init [] ∧
    vaibhav_ioctl_locked (.POP_DATA (some ⟨3, [0, 0, 0]⟩)) Env.signalled QState.init
      = ([.mutex_lock, .mutex_unlock], .ret (-EFAULT) QState.init []) ∧
    runLock (vaibhav_ioctl_locked (.POP_DATA (some ⟨3, [0, 0, 0]⟩)) Env.signalled
      QState.init).1 false = some false :=
  ⟨by decide, rfl,
   C13_interrupted_wait QState.init Env.signalled ⟨3, [0, 0, 0]⟩ (by decide) rfl⟩

/-- C14, evaluated where it fails: two callers issue POP_DATA of 3 bytes on the
queue of Scenario A (count 3). Both pass the wait condition before either takes
the mutex again. The first removal leaves count 0; the second caller then takes
the mutex although `count >= length` no longer holds, and its removal, which
does not look at count again, returns 0 with the contents of two cells that
were never written and one byte the first caller already received, and leaves
count at -3. -/
theorem C14_removal_without_recheck :
    popWaitCondition ⟨3, [0, 0, 0]⟩ scenarioA = true ∧
    popAfterWait ⟨3, [0, 0, 0]⟩ Env.calm scenarioA
      = .ret 0 { scenarioA with head := 3, count := 0 } [1, 2, 3] ∧
    popWaitCondition ⟨3, [0, 0, 0]⟩ { scenarioA with head := 3, count := 0 } = false ∧
    popAfterWait ⟨3, [0, 0, 0]⟩ Env.calm { scenarioA with head := 3, count := 0 }
      = .ret 0 { scenarioA with head := 1, count := -3 } [0, 0, 1] := by
  decide

/-- C15. Oversized dequeue is never satisfied: in every reachable state with
storage present and for every POP_DATA length greater than `queue_size`, the
wait condition `count >= length` is false; after any further sequence of
returning PUSH_DATA and POP_DATA calls the capacity is the same, the wait
condition is still false, and no POP_DATA of that length returns 0 there. -/
theorem C15_oversized_dequeue (s : QState) (hreach : Reachable s)
    (hconf : s.queue.isSome = true) (d : data) (hbig : d.length > s.queue_size)
    (cmds : List (Cmd × Env)) (hops : ∀ c ∈ cmds, isQueueOp c.1 = true)
    (s1 : QState) (hrun : runSeq cmds s = some s1) :
    popWaitCondition d s = false ∧
    s1.queue_size = s.queue_size ∧
    popWaitCondition d s1 = false ∧
    (∀ (env : Env) (s2 : QState) (out : List Byte),
      vaibhav_ioctl (.POP_DATA (some d)) env s1 ≠ .ret 0 s2 out) := by
  have hinv : QueueInv s := by
    rcases reachable_inv s hreach with hnone | hinv
    · rw [hnone] at hconf; cases hconf
    · exact hinv
  obtain ⟨hinv1, hqs⟩ := runSeq_preserves cmds s s1 hinv hops hrun
  have hc : s.count ≤ s.queue_size := hinv.2.2.2.2.1
  have hc1 : s1.count ≤ s1.queue_size := hinv1.2.2.2.2.1
  have hlt : s1.count < d.length := by omega
  refine ⟨?_, hqs, ?_, ?_⟩
  · simp only [popWaitCondition, decide_eq_false_iff_not]; omega
  · simp only [popWaitCondition, decide_eq_false_iff_not]; omega
  · intro env s2 out
    simp only [vaibhav_ioctl, if_pos hlt]
    split
    · intro h; exact absurd (ret_code_eq h) (by decide)
    · intro h; cases h

/-- C15, witness: on the queue of Scenario A (capacity 5) a pop of 6 bytes is
not satisfiable, also after a pop of 3 and a push of 5 bytes that fills the
queue. -/
theorem C15_oversized_dequeue_witness :
    Reachable scenarioA ∧ scenarioA.queue.isSome = true ∧
    (6 : Int) > scenarioA.queue_size ∧
    (∀ c ∈ popPushRun, isQueueOp c.1 = true) ∧
    runSeq popPushRun scenarioA = some ⟨5, some [6, 7, 8, 4, 5], 3, 3, 5⟩ ∧
    popWaitCondition ⟨6, [0, 0, 0, 0, 0, 0]⟩ scenarioA = false ∧
    (⟨5, some [6, 7, 8, 4, 5], 3, 3, 5⟩ : QState).queue_size = scenarioA.queue_size ∧
    popWaitCondition ⟨6, [0, 0, 0, 0, 0, 0]⟩ ⟨5, some [6, 7, 8, 4, 5], 3, 3, 5⟩ = false ∧
    (∀ (env : Env) (s2 : QState) (out : List Byte),
      vaibhav_ioctl (.POP_DATA (some ⟨6, [0, 0, 0, 0, 0, 0]⟩)) env
        ⟨5, some [6, 7, 8, 4, 5], 3, 3, 5⟩ ≠ .ret 0 s2 out) :=
  ⟨scenarioA_reachable, rfl, by decide, by decide, by decide,
   C15_oversized_dequeue scenarioA scenarioA_reachable rfl ⟨6, [0, 0, 0, 0, 0, 0]⟩
     (by decide) popPushRun (by decide) ⟨5, some [6, 7, 8, 4, 5], 3, 3, 5⟩ (by decide)⟩

/-- C16, evaluated where it fails: on the queue of Scenario A a PUSH_DATA with
length -1 is not caught by the comparison `length > queue_size - count` (it is
false: -1 is not greater than 2); the call goes on to `kmalloc(-1)`, which
fails, and it is there that `-ENOMEM` is returned. In fact the comparison is
false for every negative length on every queue satisfying the invariant. -/
theorem C16_negative_length_passes_check :
    QueueInv scenarioA ∧
    ¬ ((-1 : Int) > wrap32 (scenarioA.queue_size - scenarioA.count)) ∧
    kmalloc (-1) Env.calm.kmalloc_ok = false ∧
    vaibhav_ioctl (.PUSH_DATA (some ⟨-1, [9]⟩)) Env.calm scenarioA
      = .ret (-ENOMEM) scenarioA [] ∧
    (∀ (s : QState) (len : Int), QueueInv s → len < 0 →
      ¬ (len > wrap32 (s.queue_size - s.count))) := by
  refine ⟨by decide, by decide, by decide, by decide, ?_⟩
  intro s len hinv hneg
  obtain ⟨-, hpos, hmax, hc0, hc1, -⟩ := hinv
  unfold INT_MAX at hmax
  rw [wrap32_eq _ (by unfold INT_MIN; omega) (by unfold INT_MAX; omega)]
  omega

/-- C17. Lock released on every exit path: for every command, argument, state
and copy, allocation and signal outcome, the mutex operations of the call, run
from a free mutex, never lock a held mutex and never unlock a free one, and the
mutex is free when the call returns or sleeps; it is held at the end only when
the call dies in an invalid memory access inside a loop. -/
theorem C17_lock_discipline (cmd : Cmd) (env : Env) (s : QState) :
    runLock (vaibhav_ioctl_locked cmd env s).1 false
      = some (vaibhav_ioctl cmd env s).died := by
  rw [← locked_outcome cmd env s]
  cases cmd with
  | SET_SIZE_OF_QUEUE arg =>
    cases arg with
    | none => rfl
    | some v =>
      simp only [vaibhav_ioctl_locked]
      split_ifs <;> rfl
  | PUSH_DATA arg =>
    cases arg with
    | none => rfl
    | some d =>
      simp only [vaibhav_ioctl_locked]
      cases s.queue with
      | none => rfl
      | some q =>
        simp only
        split_ifs
        · rfl
        · rfl
        · cases copy_from_user d.data d.length with
          | none => rfl
          | some bs =>
            simp only
            cases pushLoop bs s <;> rfl
  | POP_DATA arg =>
    cases arg with
    | none => rfl
    | some d =>
      simp only [vaibhav_ioctl_locked]
      by_cases h1 : s.count < d.length
      · simp only [if_pos h1]
        split_ifs <;> rfl
      · by_cases h2 : kmalloc d.length env.kmalloc_ok = false
        · simp only [if_neg h1, if_pos h2]; rfl
        · simp only [if_neg h1, if_neg h2]
          cases popLoop d.length.toNat s with
          | none => rfl
          | some r =>
            simp only
            split_ifs <;> rfl
  | unrecognized nr => rfl

/-- C18, evaluated where it fails: the state left by `Configure(5)`,
`Enqueue([1,2,3])` and a SET_SIZE_OF_QUEUE of size 7 whose allocation fails is
reachable; there `queue` is NULL and count is 3, a POP_DATA of 3 bytes passes the
wait condition, and the first read `queue[head]` of its loop goes through the
NULL pointer. -/
theorem C18_pop_reads_null_storage :
    Reachable staleA ∧ staleA.queue = none ∧
    popWaitCondition ⟨3, [0, 0, 0]⟩ staleA = true ∧
    popStep staleA = none ∧
    vaibhav_ioctl (.POP_DATA (some ⟨3, [0, 0, 0]⟩)) Env.calm staleA = .oops :=
  ⟨staleA_reachable, rfl, by decide, by decide, by decide⟩

/-- C19. Negative-length dequeue is inert: in every reachable state and for
every POP_DATA request with `length < 0`, the wait condition holds (the call
never sleeps), the removal loop has zero iterations and changes nothing, and the
call returns (with `-ENOMEM`, from the allocation of a negative size) leaving head,
tail, count and the storage unchanged, whatever the environment. -/
theorem C19_negative_dequeue_inert (s : QState) (hreach : Reachable s) (env : Env)
    (d : data) (hneg : d.length < 0) :
    popWaitCondition d s = true ∧
    d.length.toNat = 0 ∧
    popLoop d.length.toNat s = some ([], s) ∧
    vaibhav_ioctl (.POP_DATA (some d)) env s = .ret (-ENOMEM) s [] := by
  have hc := reachable_count_nonneg s hreach
  have hz : d.length.toNat = 0 := by omega
  have hk : kmalloc d.length env.kmalloc_ok = false := by
    unfold kmalloc; rw [if_pos hneg]
  refine ⟨?_, hz, by rw [hz]; rfl, ?_⟩
  · simp only [popWaitCondition, decide_eq_true_eq]; omega
  · simp only [vaibhav_ioctl, if_neg (show ¬ s.count < d.length by omega), hk, if_true]

/-- C19, witness: a pop of length -1 on the queue of Scenario A. -/
theorem C19_negative_dequeue_inert_witness :
    Reachable scenarioA ∧ (-1 : Int) < 0 ∧
    popWaitCondition ⟨-1, [0]⟩ scenarioA = true ∧
    (-1 : Int).toNat = 0 ∧
    popLoop (-1 : Int).toNat scenarioA = some ([], scenarioA) ∧
    vaibhav_ioctl (.POP_DATA (some ⟨-1, [0]⟩)) Env.calm scenarioA
      = .ret (-ENOMEM) scenarioA [] :=
  ⟨scenarioA_reachable, by decide,
   C19_negative_dequeue_inert scenarioA scenarioA_reachable Env.calm ⟨-1, [0]⟩ (by decide)⟩

end Vaibhav
